import Mathlib

/-!
Verification of the jclass Java class-file codec (package `class`).

The repository source provides the data model and codec interfaces
(`types.go`): the `ClassFile` record, the `Constant` and `Attribute`
discriminated unions with their typed projection accessors, and the
`Dumper` interface.  The codec bodies themselves (`Parse`, `Dump`, the
per-variant `Read` implementations, the constant-pool bookkeeping and the
accessors) are not present in the source tree, so they are modelled from
the specification document, section by section: the binary cursor (spec
section 4.1), the constant pool codec (4.2), the attribute codec (4.3),
the record codec (4.4) and the class file codec (4.5).

Bytes are modelled as natural numbers below 256; streams as `List Nat`.
Decoders consume a prefix of the stream and return the decoded value
together with the unconsumed tail, mirroring the strictly forward binary
cursor of the spec.  Failure is modelled with `Except` over the error
taxonomy of spec section 7.  A Go `panic` in a typed projection accessor
is modelled as `Option.none`.
-/

namespace JClass

/-- A byte stream: every element is an octet value below 256. -/
def Bytes (s : List Nat) : Prop := ∀ b ∈ s, b < 256

instance (s : List Nat) : Decidable (Bytes s) := List.decidableBAll _ s

/-- Modelled from the spec: the error taxonomy of section 7 (`IOError`,
`BadMagic`, `MalformedConstant`, `MalformedAttribute`, `DanglingIndex`);
the error values themselves are absent from the source tree. -/
inductive JErr
  | ioError
  | badMagic
  | malformedConstant
  | malformedAttribute
  | danglingIndex
deriving DecidableEq

/-- Index into the constant pool (`ConstPoolIndex` in types.go, a uint16;
the uint16 range is enforced at the read sites, which decode two bytes). -/
abbrev ConstPoolIndex := Nat

/-- Access flag mask (`AccessFlags` in types.go, a uint16). -/
abbrev AccessFlags := Nat

/-! ## Binary cursor (spec section 4.1)

Modelled from the spec: sequential big-endian integer and byte-run reads
and writes over a byte stream; a short read fails with `IOError`. -/

/-- Read one unsigned byte. -/
def readU1 : List Nat → Except JErr (Nat × List Nat)
  | b :: r => .ok (b, r)
  | [] => .error .ioError

/-- Read an unsigned 16-bit big-endian integer. -/
def readU2 : List Nat → Except JErr (Nat × List Nat)
  | b1 :: b0 :: r => .ok (b1 * 256 + b0, r)
  | _ => .error .ioError

/-- Read an unsigned 32-bit big-endian integer. -/
def readU4 : List Nat → Except JErr (Nat × List Nat)
  | b3 :: b2 :: b1 :: b0 :: r =>
      .ok (b3 * 16777216 + b2 * 65536 + b1 * 256 + b0, r)
  | _ => .error .ioError

/-- Read an unsigned 64-bit big-endian integer (two 32-bit halves). -/
def readU8 (s : List Nat) : Except JErr (Nat × List Nat) := do
  let (hi, s1) ← readU4 s
  let (lo, s2) ← readU4 s1
  .ok (hi * 4294967296 + lo, s2)

/-- Read a fixed-length opaque byte run. -/
def readBytes (n : Nat) (s : List Nat) : Except JErr (List Nat × List Nat) :=
  if n ≤ s.length then .ok (s.take n, s.drop n) else .error .ioError

/-- Write one byte (low eight bits). -/
def writeU1 (n : Nat) : List Nat := [n % 256]

/-- Write an unsigned 16-bit big-endian integer. -/
def writeU2 (n : Nat) : List Nat := [n / 256 % 256, n % 256]

/-- Write an unsigned 32-bit big-endian integer. -/
def writeU4 (n : Nat) : List Nat :=
  [n / 16777216 % 256, n / 65536 % 256, n / 256 % 256, n % 256]

/-- Write an unsigned 64-bit big-endian integer. -/
def writeU8 (n : Nat) : List Nat :=
  writeU4 (n / 4294967296) ++ writeU4 (n % 4294967296)

/-- Run a decoder a fixed number of times, threading the stream tail. -/
def readN {α : Type} (dec : List Nat → Except JErr (α × List Nat)) :
    Nat → List Nat → Except JErr (List α × List Nat)
  | 0, s => .ok ([], s)
  | n + 1, s => do
    let (a, s1) ← dec s
    let (as, s2) ← readN dec n s1
    .ok (a :: as, s2)

/-! ## Constants (types.go `Constant`, spec sections 3 and 4.2) -/

/-- Runtime discriminant of a constant (types.go `ConstantType`). -/
inductive ConstantType
  | classRef
  | fieldRef
  | methodRef
  | interfaceMethodRef
  | stringRef
  | integer
  | float
  | long
  | double
  | nameAndType
  | utf8
  | methodHandle
  | methodType
  | invokeDynamic
deriving DecidableEq

/-- A constant pool entry: tagged variant over the fourteen kinds listed
in types.go, each holding its fixed payload; pool-index cross-references
are left unresolved (lazy).  Numeric payloads hold the raw big-endian
bits (floats and doubles are carried as uninterpreted bit patterns). -/
inductive Constant
  | classRef (NameIndex : ConstPoolIndex)
  | fieldRef (ClassIndex NameAndTypeIndex : ConstPoolIndex)
  | methodRef (ClassIndex NameAndTypeIndex : ConstPoolIndex)
  | interfaceMethodRef (ClassIndex NameAndTypeIndex : ConstPoolIndex)
  | stringRef (StringIndex : ConstPoolIndex)
  | integer (Value : Nat)
  | float (Bits : Nat)
  | long (Bits : Nat)
  | double (Bits : Nat)
  | nameAndType (NameIndex DescriptorIndex : ConstPoolIndex)
  | utf8 (Value : List Nat)
  | methodHandle (ReferenceKind : Nat) (ReferenceIndex : ConstPoolIndex)
  | methodType (DescriptorIndex : ConstPoolIndex)
  | invokeDynamic (BootstrapMethodAttrIndex NameAndTypeIndex : ConstPoolIndex)
deriving DecidableEq

/-- Runtime discriminant of a constant value (types.go `GetTag`). -/
def Constant.GetTag : Constant → ConstantType
  | .classRef _ => .classRef
  | .fieldRef _ _ => .fieldRef
  | .methodRef _ _ => .methodRef
  | .interfaceMethodRef _ _ => .interfaceMethodRef
  | .stringRef _ => .stringRef
  | .integer _ => .integer
  | .float _ => .float
  | .long _ => .long
  | .double _ => .double
  | .nameAndType _ _ => .nameAndType
  | .utf8 _ => .utf8
  | .methodHandle _ _ => .methodHandle
  | .methodType _ => .methodType
  | .invokeDynamic _ _ => .invokeDynamic

/-- Modelled from the spec: the number of logical constant-pool slots an
entry occupies; 64-bit constants (long, double) use up two spaces
(comment on `ClassFile.ConstPoolSize` in types.go). -/
def constWidth : Constant → Nat
  | .long _ => 2
  | .double _ => 2
  | _ => 1

/-- Whether a constant is a two-slot (64-bit) entry. -/
def isWide : Constant → Bool
  | .long _ => true
  | .double _ => true
  | _ => false

/-- Total number of logical slots occupied by a list of entries. -/
def sumWidths (cs : List Constant) : Nat := (cs.map constWidth).sum

/-- Number of two-slot (long or double) entries in a list. -/
def countWide (cs : List Constant) : Nat := cs.countP isWide

/-- Modelled from the spec: decode one constant-pool entry; read a one
byte tag and dispatch to that variant fixed decoder (spec section 4.2).
Tag values are the fixed constants of the reference class-file format.
An unrecognized tag fails with `MalformedConstant`. -/
def decodeConstant (s : List Nat) : Except JErr (Constant × List Nat) := do
  let (tag, s1) ← readU1 s
  if tag = 1 then do
    let (len, s2) ← readU2 s1
    let (bs, s3) ← readBytes len s2
    .ok (.utf8 bs, s3)
  else if tag = 3 then do
    let (v, s2) ← readU4 s1
    .ok (.integer v, s2)
  else if tag = 4 then do
    let (v, s2) ← readU4 s1
    .ok (.float v, s2)
  else if tag = 5 then do
    let (v, s2) ← readU8 s1
    .ok (.long v, s2)
  else if tag = 6 then do
    let (v, s2) ← readU8 s1
    .ok (.double v, s2)
  else if tag = 7 then do
    let (i, s2) ← readU2 s1
    .ok (.classRef i, s2)
  else if tag = 8 then do
    let (i, s2) ← readU2 s1
    .ok (.stringRef i, s2)
  else if tag = 9 then do
    let (ci, s2) ← readU2 s1
    let (ni, s3) ← readU2 s2
    .ok (.fieldRef ci ni, s3)
  else if tag = 10 then do
    let (ci, s2) ← readU2 s1
    let (ni, s3) ← readU2 s2
    .ok (.methodRef ci ni, s3)
  else if tag = 11 then do
    let (ci, s2) ← readU2 s1
    let (ni, s3) ← readU2 s2
    .ok (.interfaceMethodRef ci ni, s3)
  else if tag = 12 then do
    let (ni, s2) ← readU2 s1
    let (di, s3) ← readU2 s2
    .ok (.nameAndType ni di, s3)
  else if tag = 15 then do
    let (k, s2) ← readU1 s1
    let (i, s3) ← readU2 s2
    .ok (.methodHandle k i, s3)
  else if tag = 16 then do
    let (di, s2) ← readU2 s1
    .ok (.methodType di, s2)
  else if tag = 18 then do
    let (bi, s2) ← readU2 s1
    let (ni, s3) ← readU2 s2
    .ok (.invokeDynamic bi ni, s3)
  else .error .malformedConstant

/-- Modelled from the spec: encode one constant-pool entry, re-deriving
the tag byte from the variant (spec section 4.2). -/
def encodeConstant : Constant → List Nat
  | .utf8 bs => writeU1 1 ++ writeU2 bs.length ++ bs
  | .integer v => writeU1 3 ++ writeU4 v
  | .float v => writeU1 4 ++ writeU4 v
  | .long v => writeU1 5 ++ writeU8 v
  | .double v => writeU1 6 ++ writeU8 v
  | .classRef i => writeU1 7 ++ writeU2 i
  | .stringRef i => writeU1 8 ++ writeU2 i
  | .fieldRef ci ni => writeU1 9 ++ writeU2 ci ++ writeU2 ni
  | .methodRef ci ni => writeU1 10 ++ writeU2 ci ++ writeU2 ni
  | .interfaceMethodRef ci ni => writeU1 11 ++ writeU2 ci ++ writeU2 ni
  | .nameAndType ni di => writeU1 12 ++ writeU2 ni ++ writeU2 di
  | .methodHandle k i => writeU1 15 ++ writeU1 k ++ writeU2 i
  | .methodType di => writeU1 16 ++ writeU2 di
  | .invokeDynamic bi ni => writeU1 18 ++ writeU2 bi ++ writeU2 ni

/-- Concatenated encodings of a list of pool entries, in pool order. -/
def encodeConstantList (cs : List Constant) : List Nat :=
  (cs.map encodeConstant).flatten

/-- Modelled from the spec: decode constant-pool entries while logical
slots remain.  Given declared size N the caller passes N - 1 remaining
slots (slot 0 is implicit and absent); a long or double entry consumes
one extra logical slot with no corresponding entry, and broken 64-bit
slot bookkeeping (a wide entry in the last remaining slot) fails with
`MalformedConstant` (spec sections 4.2 and 7). -/
def decodePool : Nat → List Nat → Except JErr (List Constant × List Nat)
  | 0, s => .ok ([], s)
  | m + 1, s => do
    let (c, s1) ← decodeConstant s
    if isWide c then
      match m with
      | 0 => .error .malformedConstant
      | m' + 1 => do
        let (cs, s2) ← decodePool m' s1
        .ok (c :: cs, s2)
    else do
      let (cs, s2) ← decodePool m s1
      .ok (c :: cs, s2)
  termination_by structural m => m

/-- The constant pool of a class (types.go `ConstantPool`). -/
abbrev ConstantPool := List Constant

/-- Modelled from the spec: the declared constant-pool size, recomputed
from the actual layout - one implicit slot 0 plus the logical slots of
the stored entries (spec section 4.2). -/
def ConstantPool.size (cp : ConstantPool) : Nat := 1 + sumWidths cp

/-- Logical slot assignment of pool entries, starting at a given slot:
each entry occupies `constWidth` slots, so the slot following a long or
double entry has no corresponding entry. -/
def slotsFrom : Nat → List Constant → List (Nat × Constant)
  | _, [] => []
  | k, c :: cs => (k, c) :: slotsFrom (k + constWidth c) cs

/-- Lookup by logical slot, starting from a given slot number. -/
def lookupFrom : Nat → List Constant → Nat → Option Constant
  | _, [], _ => none
  | k, c :: cs, i => if i = k then some c else lookupFrom (k + constWidth c) cs i

/-- Modelled from the spec: dereference a pool index.  The pool is
1-based, index 0 is never valid, and the phantom slot after a long or
double entry is never independently addressable (spec section 3). -/
def ConstantPool.lookup (cp : ConstantPool) (i : Nat) : Option Constant :=
  lookupFrom 1 cp i

/-! ## Attributes (types.go `Attribute`, spec sections 3 and 4.3) -/

/-- Runtime discriminant of an attribute (types.go `AttributeType`). -/
inductive AttributeType
  | unknownAttr
  | constantValue
  | code
  | exceptions
  | innerClasses
  | enclosingMethod
  | synthetic
  | signature
  | sourceFile
  | sourceDebugExtension
  | lineNumberTable
  | localVariableTable
  | localVariableTypeTable
  | deprecated
  | bootstrapMethods
deriving DecidableEq

/-- One exception-table entry of a Code attribute (spec section 4.4). -/
structure CodeException where
  StartPC : Nat
  EndPC : Nat
  HandlerPC : Nat
  CatchType : ConstPoolIndex
deriving DecidableEq

/-- One entry of an InnerClasses attribute. -/
structure InnerClass where
  InnerClassIndex : ConstPoolIndex
  OuterClassIndex : ConstPoolIndex
  InnerNameIndex : ConstPoolIndex
  AccessFlags : AccessFlags
deriving DecidableEq

/-- One entry of a LineNumberTable attribute. -/
structure LineNumberEntry where
  StartPC : Nat
  LineNumber : Nat
deriving DecidableEq

/-- One entry of a LocalVariableTable or LocalVariableTypeTable attribute. -/
structure LocalVariable where
  StartPC : Nat
  Length : Nat
  NameIndex : ConstPoolIndex
  DescriptorIndex : ConstPoolIndex
  Index : Nat
deriving DecidableEq

/-- One entry of a BootstrapMethods attribute. -/
structure BootstrapMethod where
  MethodRef : ConstPoolIndex
  Args : List ConstPoolIndex
deriving DecidableEq

/-- An attribute: tagged variant over the known kinds listed in types.go
plus the catch-all unknown variant carrying raw bytes.  Every variant
keeps its resolved name-pool-index so encoding can re-emit the name
reference.  A Code attribute nests a further attribute list. -/
inductive Attribute
  | unknownAttr (NameIndex : ConstPoolIndex) (Info : List Nat)
  | constantValue (NameIndex ConstantValueIndex : ConstPoolIndex)
  | code (NameIndex : ConstPoolIndex) (MaxStackSize MaxLocalVariables : Nat)
      (ByteCode : List Nat) (ExceptionsTable : List CodeException)
      (Attributes : List Attribute)
  | exceptions (NameIndex : ConstPoolIndex) (ExceptionIndexes : List ConstPoolIndex)
  | innerClasses (NameIndex : ConstPoolIndex) (Classes : List InnerClass)
  | enclosingMethod (NameIndex ClassIndex MethodIndex : ConstPoolIndex)
  | synthetic (NameIndex : ConstPoolIndex)
  | signature (NameIndex SignatureIndex : ConstPoolIndex)
  | sourceFile (NameIndex SourceFileIndex : ConstPoolIndex)
  | sourceDebugExtension (NameIndex : ConstPoolIndex) (DebugExtension : List Nat)
  | lineNumberTable (NameIndex : ConstPoolIndex) (Table : List LineNumberEntry)
  | localVariableTable (NameIndex : ConstPoolIndex) (Table : List LocalVariable)
  | localVariableTypeTable (NameIndex : ConstPoolIndex) (Table : List LocalVariable)
  | deprecated (NameIndex : ConstPoolIndex)
  | bootstrapMethods (NameIndex : ConstPoolIndex) (Methods : List BootstrapMethod)

/-- Runtime discriminant of an attribute value (types.go `GetTag`). -/
def Attribute.GetTag : Attribute → AttributeType
  | .unknownAttr _ _ => .unknownAttr
  | .constantValue _ _ => .constantValue
  | .code _ _ _ _ _ _ => .code
  | .exceptions _ _ => .exceptions
  | .innerClasses _ _ => .innerClasses
  | .enclosingMethod _ _ _ => .enclosingMethod
  | .synthetic _ => .synthetic
  | .signature _ _ => .signature
  | .sourceFile _ _ => .sourceFile
  | .sourceDebugExtension _ _ => .sourceDebugExtension
  | .lineNumberTable _ _ => .lineNumberTable
  | .localVariableTable _ _ => .localVariableTable
  | .localVariableTypeTable _ _ => .localVariableTypeTable
  | .deprecated _ => .deprecated
  | .bootstrapMethods _ _ => .bootstrapMethods

/-- The resolved name-pool-index an attribute was decoded with. -/
def Attribute.NameIndex : Attribute → ConstPoolIndex
  | .unknownAttr ni _ => ni
  | .constantValue ni _ => ni
  | .code ni _ _ _ _ _ => ni
  | .exceptions ni _ => ni
  | .innerClasses ni _ => ni
  | .enclosingMethod ni _ _ => ni
  | .synthetic ni => ni
  | .signature ni _ => ni
  | .sourceFile ni _ => ni
  | .sourceDebugExtension ni _ => ni
  | .lineNumberTable ni _ => ni
  | .localVariableTable ni _ => ni
  | .localVariableTypeTable ni _ => ni
  | .deprecated ni => ni
  | .bootstrapMethods ni _ => ni

/-! ### Attribute names

Case-sensitive ASCII names fixed by the reference class-file format
(spec section 6), written out as byte lists. -/

/-- The ASCII bytes of the name ConstantValue. -/
def nameConstantValue : List Nat := [67, 111, 110, 115, 116, 97, 110, 116, 86, 97, 108, 117, 101]

/-- The ASCII bytes of the name Code. -/
def nameCode : List Nat := [67, 111, 100, 101]

/-- The ASCII bytes of the name Exceptions. -/
def nameExceptions : List Nat := [69, 120, 99, 101, 112, 116, 105, 111, 110, 115]

/-- The ASCII bytes of the name InnerClasses. -/
def nameInnerClasses : List Nat := [73, 110, 110, 101, 114, 67, 108, 97, 115, 115, 101, 115]

/-- The ASCII bytes of the name EnclosingMethod. -/
def nameEnclosingMethod : List Nat := [69, 110, 99, 108, 111, 115, 105, 110, 103, 77, 101, 116, 104, 111, 100]

/-- The ASCII bytes of the name Synthetic. -/
def nameSynthetic : List Nat := [83, 121, 110, 116, 104, 101, 116, 105, 99]

/-- The ASCII bytes of the name Signature. -/
def nameSignature : List Nat := [83, 105, 103, 110, 97, 116, 117, 114, 101]

/-- The ASCII bytes of the name SourceFile. -/
def nameSourceFile : List Nat := [83, 111, 117, 114, 99, 101, 70, 105, 108, 101]

/-- The ASCII bytes of the name SourceDebugExtension. -/
def nameSourceDebugExtension : List Nat := [83, 111, 117, 114, 99, 101, 68, 101, 98, 117, 103, 69, 120, 116, 101, 110, 115, 105, 111, 110]

/-- The ASCII bytes of the name LineNumberTable. -/
def nameLineNumberTable : List Nat := [76, 105, 110, 101, 78, 117, 109, 98, 101, 114, 84, 97, 98, 108, 101]

/-- The ASCII bytes of the name LocalVariableTable. -/
def nameLocalVariableTable : List Nat := [76, 111, 99, 97, 108, 86, 97, 114, 105, 97, 98, 108, 101, 84, 97, 98, 108, 101]

/-- The ASCII bytes of the name LocalVariableTypeTable. -/
def nameLocalVariableTypeTable : List Nat := [76, 111, 99, 97, 108, 86, 97, 114, 105, 97, 98, 108, 101, 84, 121, 112, 101, 84, 97, 98, 108, 101]

/-- The ASCII bytes of the name Deprecated. -/
def nameDeprecated : List Nat := [68, 101, 112, 114, 101, 99, 97, 116, 101, 100]

/-- The ASCII bytes of the name BootstrapMethods. -/
def nameBootstrapMethods : List Nat := [66, 111, 111, 116, 115, 116, 114, 97, 112, 77, 101, 116, 104, 111, 100, 115]

/-- The ASCII bytes of the name StackMapTable (not in the decoder table). -/
def nameStackMapTable : List Nat := [83, 116, 97, 99, 107, 77, 97, 112, 84, 97, 98, 108, 101]

/-- The ASCII bytes of the name RuntimeVisibleAnnotations (not in the decoder table). -/
def nameRuntimeVisibleAnnotations : List Nat := [82, 117, 110, 116, 105, 109, 101, 86, 105, 115, 105, 98, 108, 101, 65, 110, 110, 111, 116, 97, 116, 105, 111, 110, 115]

/-- The ASCII bytes of the name RuntimeInvisibleAnnotations (not in the decoder table). -/
def nameRuntimeInvisibleAnnotations : List Nat := [82, 117, 110, 116, 105, 109, 101, 73, 110, 118, 105, 115, 105, 98, 108, 101, 65, 110, 110, 111, 116, 97, 116, 105, 111, 110, 115]

/-- The ASCII bytes of the name RuntimeVisibleParameterAnnotations (not in the decoder table). -/
def nameRuntimeVisibleParameterAnnotations : List Nat := [82, 117, 110, 116, 105, 109, 101, 86, 105, 115, 105, 98, 108, 101, 80, 97, 114, 97, 109, 101, 116, 101, 114, 65, 110, 110, 111, 116, 97, 116, 105, 111, 110, 115]

/-- The ASCII bytes of the name RuntimeInvisibleParameterAnnotations (not in the decoder table). -/
def nameRuntimeInvisibleParameterAnnotations : List Nat := [82, 117, 110, 116, 105, 109, 101, 73, 110, 118, 105, 115, 105, 98, 108, 101, 80, 97, 114, 97, 109, 101, 116, 101, 114, 65, 110, 110, 111, 116, 97, 116, 105, 111, 110, 115]

/-- The ASCII bytes of the name AnnotationDefault (not in the decoder table). -/
def nameAnnotationDefault : List Nat := [65, 110, 110, 111, 116, 97, 116, 105, 111, 110, 68, 101, 102, 97, 117, 108, 116]

/-- Modelled from the spec: the domain of the static name-to-decoder
table of the attribute codec (spec section 4.3).  The excluded kinds
(stack-map tables, the annotation attributes, default annotation values)
are the accepted coverage gap of the README. -/
def knownAttrNames : List (List Nat) :=
  [nameConstantValue, nameCode, nameExceptions, nameInnerClasses,
   nameEnclosingMethod, nameSynthetic, nameSignature, nameSourceFile,
   nameSourceDebugExtension, nameLineNumberTable, nameLocalVariableTable,
   nameLocalVariableTypeTable, nameDeprecated, nameBootstrapMethods]

/-- Whether a resolved attribute name is in the static decoder table. -/
def isKnownAttrName (name : List Nat) : Bool := knownAttrNames.contains name

/-! ### Element decoders and encoders for attribute payload tables -/

/-- Decode one exception-table entry. -/
def decodeCodeException (s : List Nat) : Except JErr (CodeException × List Nat) := do
  let (sp, s1) ← readU2 s
  let (ep, s2) ← readU2 s1
  let (hp, s3) ← readU2 s2
  let (ct, s4) ← readU2 s3
  .ok (⟨sp, ep, hp, ct⟩, s4)

/-- Encode one exception-table entry. -/
def encodeCodeException (e : CodeException) : List Nat :=
  writeU2 e.StartPC ++ writeU2 e.EndPC ++ writeU2 e.HandlerPC ++ writeU2 e.CatchType

/-- Decode one InnerClasses entry. -/
def decodeInnerClass (s : List Nat) : Except JErr (InnerClass × List Nat) := do
  let (ici, s1) ← readU2 s
  let (oci, s2) ← readU2 s1
  let (ini, s3) ← readU2 s2
  let (af, s4) ← readU2 s3
  .ok (⟨ici, oci, ini, af⟩, s4)

/-- Encode one InnerClasses entry. -/
def encodeInnerClass (e : InnerClass) : List Nat :=
  writeU2 e.InnerClassIndex ++ writeU2 e.OuterClassIndex ++
  writeU2 e.InnerNameIndex ++ writeU2 e.AccessFlags

/-- Decode one LineNumberTable entry. -/
def decodeLineNumberEntry (s : List Nat) : Except JErr (LineNumberEntry × List Nat) := do
  let (sp, s1) ← readU2 s
  let (ln, s2) ← readU2 s1
  .ok (⟨sp, ln⟩, s2)

/-- Encode one LineNumberTable entry. -/
def encodeLineNumberEntry (e : LineNumberEntry) : List Nat :=
  writeU2 e.StartPC ++ writeU2 e.LineNumber

/-- Decode one LocalVariableTable or LocalVariableTypeTable entry. -/
def decodeLocalVariable (s : List Nat) : Except JErr (LocalVariable × List Nat) := do
  let (sp, s1) ← readU2 s
  let (ln, s2) ← readU2 s1
  let (ni, s3) ← readU2 s2
  let (di, s4) ← readU2 s3
  let (ix, s5) ← readU2 s4
  .ok (⟨sp, ln, ni, di, ix⟩, s5)

/-- Encode one LocalVariableTable or LocalVariableTypeTable entry. -/
def encodeLocalVariable (e : LocalVariable) : List Nat :=
  writeU2 e.StartPC ++ writeU2 e.Length ++ writeU2 e.NameIndex ++
  writeU2 e.DescriptorIndex ++ writeU2 e.Index

/-- Decode one BootstrapMethods entry. -/
def decodeBootstrapMethod (s : List Nat) : Except JErr (BootstrapMethod × List Nat) := do
  let (mr, s1) ← readU2 s
  let (n, s2) ← readU2 s1
  let (args, s3) ← readN readU2 n s2
  .ok (⟨mr, args⟩, s3)

/-- Encode one BootstrapMethods entry. -/
def encodeBootstrapMethod (e : BootstrapMethod) : List Nat :=
  writeU2 e.MethodRef ++ writeU2 e.Args.length ++ (e.Args.map writeU2).flatten

/-- Modelled from the spec: the variant decoders of the static
name-to-decoder table (spec section 4.3).  Every variant is
self-delimiting; the declared length is used only by the
SourceDebugExtension payload, whose byte run has no internal delimiter.
The Code variant nests a further attribute list and receives the
attribute decoder as `recur`. -/
def runVariantDecoder (recur : List Nat → Except JErr (Attribute × List Nat))
    (name : List Nat) (ni len : Nat) (s : List Nat) :
    Except JErr (Attribute × List Nat) :=
  if name = nameConstantValue then do
    let (vi, s1) ← readU2 s
    .ok (.constantValue ni vi, s1)
  else if name = nameCode then do
    let (ms, s1) ← readU2 s
    let (ml, s2) ← readU2 s1
    let (cl, s3) ← readU4 s2
    let (bc, s4) ← readBytes cl s3
    let (en, s5) ← readU2 s4
    let (et, s6) ← readN decodeCodeException en s5
    let (an, s7) ← readU2 s6
    let (ats, s8) ← readN recur an s7
    .ok (.code ni ms ml bc et ats, s8)
  else if name = nameExceptions then do
    let (n, s1) ← readU2 s
    let (idxs, s2) ← readN readU2 n s1
    .ok (.exceptions ni idxs, s2)
  else if name = nameInnerClasses then do
    let (n, s1) ← readU2 s
    let (cls, s2) ← readN decodeInnerClass n s1
    .ok (.innerClasses ni cls, s2)
  else if name = nameEnclosingMethod then do
    let (ci, s1) ← readU2 s
    let (mi, s2) ← readU2 s1
    .ok (.enclosingMethod ni ci mi, s2)
  else if name = nameSynthetic then
    .ok (.synthetic ni, s)
  else if name = nameSignature then do
    let (si, s1) ← readU2 s
    .ok (.signature ni si, s1)
  else if name = nameSourceFile then do
    let (si, s1) ← readU2 s
    .ok (.sourceFile ni si, s1)
  else if name = nameSourceDebugExtension then do
    let (bs, s1) ← readBytes len s
    .ok (.sourceDebugExtension ni bs, s1)
  else if name = nameLineNumberTable then do
    let (n, s1) ← readU2 s
    let (t, s2) ← readN decodeLineNumberEntry n s1
    .ok (.lineNumberTable ni t, s2)
  else if name = nameLocalVariableTable then do
    let (n, s1) ← readU2 s
    let (t, s2) ← readN decodeLocalVariable n s1
    .ok (.localVariableTable ni t, s2)
  else if name = nameLocalVariableTypeTable then do
    let (n, s1) ← readU2 s
    let (t, s2) ← readN decodeLocalVariable n s1
    .ok (.localVariableTypeTable ni t, s2)
  else if name = nameDeprecated then
    .ok (.deprecated ni, s)
  else if name = nameBootstrapMethods then do
    let (n, s1) ← readU2 s
    let (ms, s2) ← readN decodeBootstrapMethod n s1
    .ok (.bootstrapMethods ni ms, s2)
  else .error .malformedAttribute

/-- Modelled from the spec: decode one attribute record (spec section
4.3).  Read the name index and the four byte declared length, resolve
the name index against the already decoded pool (it must name a UTF8
entry, else `MalformedAttribute`), and dispatch: a known name runs its
variant decoder and then checks that it consumed exactly the declared
length (`MalformedAttribute` otherwise, never silently tolerated); an
unknown name stores the declared-length raw byte run verbatim.  The
fuel bounds the nesting depth of Code attributes; the top level passes
more fuel than any input can nest. -/
def decodeAttr : Nat → ConstantPool → List Nat → Except JErr (Attribute × List Nat)
  | 0, _, _ => .error .ioError
  | f + 1, pool, s => do
    let (ni, s1) ← readU2 s
    let (len, s2) ← readU4 s1
    match pool.lookup ni with
    | some (.utf8 name) =>
      if isKnownAttrName name then do
        let (a, s3) ← runVariantDecoder (decodeAttr f pool) name ni len s2
        if s2.length - s3.length = len then .ok (a, s3)
        else .error .malformedAttribute
      else do
        let (info, s3) ← readBytes len s2
        .ok (.unknownAttr ni info, s3)
    | _ => .error .malformedAttribute
  termination_by structural f => f

mutual

/-- Modelled from the spec: encode side of the attribute codec.  The
payload is produced first; the length field is recomputed from the bytes
about to be emitted, never a cached value, and the name reference is the
stored name-pool-index (spec section 4.3). -/
def encodeAttrPayload : Attribute → List Nat
  | .unknownAttr _ info => info
  | .constantValue _ vi => writeU2 vi
  | .code _ ms ml bc et ats =>
      writeU2 ms ++ writeU2 ml ++ writeU4 bc.length ++ bc ++
      writeU2 et.length ++ (et.map encodeCodeException).flatten ++
      writeU2 ats.length ++ encodeAttrList ats
  | .exceptions _ idxs => writeU2 idxs.length ++ (idxs.map writeU2).flatten
  | .innerClasses _ cls => writeU2 cls.length ++ (cls.map encodeInnerClass).flatten
  | .enclosingMethod _ ci mi => writeU2 ci ++ writeU2 mi
  | .synthetic _ => []
  | .signature _ si => writeU2 si
  | .sourceFile _ si => writeU2 si
  | .sourceDebugExtension _ bs => bs
  | .lineNumberTable _ t => writeU2 t.length ++ (t.map encodeLineNumberEntry).flatten
  | .localVariableTable _ t => writeU2 t.length ++ (t.map encodeLocalVariable).flatten
  | .localVariableTypeTable _ t => writeU2 t.length ++ (t.map encodeLocalVariable).flatten
  | .deprecated _ => []
  | .bootstrapMethods _ ms => writeU2 ms.length ++ (ms.map encodeBootstrapMethod).flatten

/-- Concatenated encodings (name index, recomputed length, payload) of a
list of attributes, in order. -/
def encodeAttrList : List Attribute → List Nat
  | [] => []
  | a :: as =>
      writeU2 a.NameIndex ++ writeU4 (encodeAttrPayload a).length ++
      encodeAttrPayload a ++ encodeAttrList as

end

/-- Encode one attribute record: name index, recomputed length, payload. -/
def encodeAttr (a : Attribute) : List Nat :=
  writeU2 a.NameIndex ++ writeU4 (encodeAttrPayload a).length ++ encodeAttrPayload a

/-! ## Fields and methods (types.go `Field`, `Method`; spec section 4.4) -/

/-- Modelled from the spec: a field or method record - the two share the
same layout (access flags, name index, descriptor index, attributes). -/
structure Member where
  AccessFlags : AccessFlags
  NameIndex : ConstPoolIndex
  DescriptorIndex : ConstPoolIndex
  Attributes : List Attribute

/-- Modelled from the spec: decode one field or method record (spec
section 4.4). -/
def decodeMember (fuel : Nat) (pool : ConstantPool) (s : List Nat) :
    Except JErr (Member × List Nat) := do
  let (af, s1) ← readU2 s
  let (ni, s2) ← readU2 s1
  let (di, s3) ← readU2 s2
  let (n, s4) ← readU2 s3
  let (ats, s5) ← readN (decodeAttr fuel pool) n s4
  .ok (⟨af, ni, di, ats⟩, s5)

/-- Encode one field or method record; the attribute count is recomputed
from the actual attribute list. -/
def encodeMember (m : Member) : List Nat :=
  writeU2 m.AccessFlags ++ writeU2 m.NameIndex ++ writeU2 m.DescriptorIndex ++
  writeU2 m.Attributes.length ++ encodeAttrList m.Attributes

/-- Concatenated encodings of a list of field or method records. -/
def encodeMemberList (ms : List Member) : List Nat :=
  (ms.map encodeMember).flatten

/-! ## The class file (types.go `ClassFile`; spec section 4.5) -/

/-- A single class file, mirroring the `ClassFile` struct of types.go.
`ConstPoolSize` is the declared pool size kept from decode time, because
the size of the pool is not just the length of `ConstantPool` (64-bit
constants use up two spaces). -/
structure ClassFile where
  Magic : Nat
  MinorVersion : Nat
  MajorVersion : Nat
  ConstPoolSize : Nat
  ConstantPool : ConstantPool
  AccessFlags : AccessFlags
  ThisClass : ConstPoolIndex
  SuperClass : ConstPoolIndex
  Interfaces : List ConstPoolIndex
  Fields : List Member
  Methods : List Member
  Attributes : List Attribute

/-- Modelled from the spec: decode a class file in the strict field
order of spec section 4.5.  The magic number must equal 0xCAFEBABE or
decoding fails with `BadMagic` before anything further is consumed; the
this-class and super-class indices are stored without dereferencing
them.  The returned tail is the unconsumed remainder of the stream. -/
def Parse (s : List Nat) : Except JErr (ClassFile × List Nat) := do
  let (magic, s1) ← readU4 s
  if magic = 0xCAFEBABE then do
    let (minor, s2) ← readU2 s1
    let (major, s3) ← readU2 s2
    let (poolSize, s4) ← readU2 s3
    let (pool, s5) ← decodePool (poolSize - 1) s4
    let (flags, s6) ← readU2 s5
    let (thisClass, s7) ← readU2 s6
    let (superClass, s8) ← readU2 s7
    let (icount, s9) ← readU2 s8
    let (ifs, s10) ← readN readU2 icount s9
    let (fcount, s11) ← readU2 s10
    let (flds, s12) ← readN (decodeMember (s.length + 1) pool) fcount s11
    let (mcount, s13) ← readU2 s12
    let (mths, s14) ← readN (decodeMember (s.length + 1) pool) mcount s13
    let (acount, s15) ← readU2 s14
    let (ats, s16) ← readN (decodeAttr (s.length + 1) pool) acount s15
    .ok (⟨magic, minor, major, poolSize, pool, flags, thisClass, superClass,
          ifs, flds, mths, ats⟩, s16)
  else .error .badMagic

/-- Modelled from the spec: encode a class file in the same strict field
order (spec section 4.5).  Every count field is recomputed from the
actual sequence length, and the declared pool size is recomputed from
the actual pool layout, never copied from a stored value. -/
def ClassFile.Dump (c : ClassFile) : List Nat :=
  writeU4 c.Magic ++ writeU2 c.MinorVersion ++ writeU2 c.MajorVersion ++
  writeU2 c.ConstantPool.size ++ encodeConstantList c.ConstantPool ++
  writeU2 c.AccessFlags ++ writeU2 c.ThisClass ++ writeU2 c.SuperClass ++
  writeU2 c.Interfaces.length ++ (c.Interfaces.map writeU2).flatten ++
  writeU2 c.Fields.length ++ encodeMemberList c.Fields ++
  writeU2 c.Methods.length ++ encodeMemberList c.Methods ++
  writeU2 c.Attributes.length ++ encodeAttrList c.Attributes

/-! ## Typed projection accessors (types.go `Constant` and `Attribute`)

Modelled from the spec: every variant exposes typed projection
operations that succeed only when the runtime discriminant matches;
invoking the wrong one panics.  The accessor bodies are absent from the
source tree; a panic is modelled as `Option.none`, success as
`Option.some` of the variant payload. -/

/-- Typed projection: constant as class reference; none models panic. -/
def Constant.Class : Constant → Option ConstPoolIndex
  | .classRef i => some i
  | _ => none

/-- Typed projection: constant as field reference; none models panic. -/
def Constant.Field : Constant → Option (ConstPoolIndex × ConstPoolIndex)
  | .fieldRef ci ni => some (ci, ni)
  | _ => none

/-- Typed projection: constant as method reference; none models panic. -/
def Constant.Method : Constant → Option (ConstPoolIndex × ConstPoolIndex)
  | .methodRef ci ni => some (ci, ni)
  | _ => none

/-- Typed projection: constant as interface-method reference; none models panic. -/
def Constant.InterfaceMethod : Constant → Option (ConstPoolIndex × ConstPoolIndex)
  | .interfaceMethodRef ci ni => some (ci, ni)
  | _ => none

/-- Typed projection: constant as string reference; none models panic. -/
def Constant.StringRef : Constant → Option ConstPoolIndex
  | .stringRef i => some i
  | _ => none

/-- Typed projection: constant as integer; none models panic. -/
def Constant.Integer : Constant → Option Nat
  | .integer v => some v
  | _ => none

/-- Typed projection: constant as float bits; none models panic. -/
def Constant.Float : Constant → Option Nat
  | .float v => some v
  | _ => none

/-- Typed projection: constant as long bits; none models panic. -/
def Constant.Long : Constant → Option Nat
  | .long v => some v
  | _ => none

/-- Typed projection: constant as double bits; none models panic. -/
def Constant.Double : Constant → Option Nat
  | .double v => some v
  | _ => none

/-- Typed projection: constant as name-and-type; none models panic. -/
def Constant.NameAndType : Constant → Option (ConstPoolIndex × ConstPoolIndex)
  | .nameAndType ni di => some (ni, di)
  | _ => none

/-- Typed projection: constant as UTF8 byte run; none models panic. -/
def Constant.UTF8 : Constant → Option (List Nat)
  | .utf8 bs => some bs
  | _ => none

/-- Typed projection: constant as method handle; none models panic. -/
def Constant.MethodHandle : Constant → Option (Nat × ConstPoolIndex)
  | .methodHandle k i => some (k, i)
  | _ => none

/-- Typed projection: constant as method type; none models panic. -/
def Constant.MethodType : Constant → Option ConstPoolIndex
  | .methodType di => some di
  | _ => none

/-- Typed projection: constant as invoke-dynamic; none models panic. -/
def Constant.InvokeDynamic : Constant → Option (ConstPoolIndex × ConstPoolIndex)
  | .invokeDynamic bi ni => some (bi, ni)
  | _ => none

/-- Whether the typed projection accessor selected by a discriminant
succeeds (returns a value rather than panicking) on a given constant. -/
def constantProjectionDefined (c : Constant) (t : ConstantType) : Bool :=
  match t with
  | .classRef => c.Class.isSome
  | .fieldRef => c.Field.isSome
  | .methodRef => c.Method.isSome
  | .interfaceMethodRef => c.InterfaceMethod.isSome
  | .stringRef => c.StringRef.isSome
  | .integer => c.Integer.isSome
  | .float => c.Float.isSome
  | .long => c.Long.isSome
  | .double => c.Double.isSome
  | .nameAndType => c.NameAndType.isSome
  | .utf8 => c.UTF8.isSome
  | .methodHandle => c.MethodHandle.isSome
  | .methodType => c.MethodType.isSome
  | .invokeDynamic => c.InvokeDynamic.isSome

/-- Typed projection: attribute as unknown raw record; none models panic. -/
def Attribute.UnknownAttr : Attribute → Option (ConstPoolIndex × List Nat)
  | .unknownAttr ni info => some (ni, info)
  | _ => none

/-- Typed projection: attribute as ConstantValue; none models panic. -/
def Attribute.ConstantValue : Attribute → Option (ConstPoolIndex × ConstPoolIndex)
  | .constantValue ni vi => some (ni, vi)
  | _ => none

/-- Typed projection: attribute as Code; none models panic. -/
def Attribute.Code : Attribute →
    Option (ConstPoolIndex × Nat × Nat × List Nat × List CodeException × List Attribute)
  | .code ni ms ml bc et ats => some (ni, ms, ml, bc, et, ats)
  | _ => none

/-- Typed projection: attribute as Exceptions; none models panic. -/
def Attribute.Exceptions : Attribute → Option (ConstPoolIndex × List ConstPoolIndex)
  | .exceptions ni idxs => some (ni, idxs)
  | _ => none

/-- Typed projection: attribute as InnerClasses; none models panic. -/
def Attribute.InnerClasses : Attribute → Option (ConstPoolIndex × List InnerClass)
  | .innerClasses ni cls => some (ni, cls)
  | _ => none

/-- Typed projection: attribute as EnclosingMethod; none models panic. -/
def Attribute.EnclosingMethod : Attribute →
    Option (ConstPoolIndex × ConstPoolIndex × ConstPoolIndex)
  | .enclosingMethod ni ci mi => some (ni, ci, mi)
  | _ => none

/-- Typed projection: attribute as Synthetic; none models panic. -/
def Attribute.Synthetic : Attribute → Option ConstPoolIndex
  | .synthetic ni => some ni
  | _ => none

/-- Typed projection: attribute as Signature; none models panic. -/
def Attribute.Signature : Attribute → Option (ConstPoolIndex × ConstPoolIndex)
  | .signature ni si => some (ni, si)
  | _ => none

/-- Typed projection: attribute as SourceFile; none models panic. -/
def Attribute.SourceFile : Attribute → Option (ConstPoolIndex × ConstPoolIndex)
  | .sourceFile ni si => some (ni, si)
  | _ => none

/-- Typed projection: attribute as SourceDebugExtension; none models panic. -/
def Attribute.SourceDebugExtension : Attribute → Option (ConstPoolIndex × List Nat)
  | .sourceDebugExtension ni bs => some (ni, bs)
  | _ => none

/-- Typed projection: attribute as LineNumberTable; none models panic. -/
def Attribute.LineNumberTable : Attribute → Option (ConstPoolIndex × List LineNumberEntry)
  | .lineNumberTable ni t => some (ni, t)
  | _ => none

/-- Typed projection: attribute as LocalVariableTable; none models panic. -/
def Attribute.LocalVariableTable : Attribute → Option (ConstPoolIndex × List LocalVariable)
  | .localVariableTable ni t => some (ni, t)
  | _ => none

/-- Typed projection: attribute as LocalVariableTypeTable; none models panic. -/
def Attribute.LocalVariableTypeTable : Attribute → Option (ConstPoolIndex × List LocalVariable)
  | .localVariableTypeTable ni t => some (ni, t)
  | _ => none

/-- Typed projection: attribute as Deprecated; none models panic. -/
def Attribute.Deprecated : Attribute → Option ConstPoolIndex
  | .deprecated ni => some ni
  | _ => none

/-- Typed projection: attribute as BootstrapMethods; none models panic. -/
def Attribute.BootstrapMethods : Attribute → Option (ConstPoolIndex × List BootstrapMethod)
  | .bootstrapMethods ni ms => some (ni, ms)
  | _ => none

/-- Whether the typed projection accessor selected by a discriminant
succeeds (returns a value rather than panicking) on a given attribute. -/
def attributeProjectionDefined (a : Attribute) (t : AttributeType) : Bool :=
  match t with
  | .unknownAttr => a.UnknownAttr.isSome
  | .constantValue => a.ConstantValue.isSome
  | .code => a.Code.isSome
  | .exceptions => a.Exceptions.isSome
  | .innerClasses => a.InnerClasses.isSome
  | .enclosingMethod => a.EnclosingMethod.isSome
  | .synthetic => a.Synthetic.isSome
  | .signature => a.Signature.isSome
  | .sourceFile => a.SourceFile.isSome
  | .sourceDebugExtension => a.SourceDebugExtension.isSome
  | .lineNumberTable => a.LineNumberTable.isSome
  | .localVariableTable => a.LocalVariableTable.isSome
  | .localVariableTypeTable => a.LocalVariableTypeTable.isSome
  | .deprecated => a.Deprecated.isSome
  | .bootstrapMethods => a.BootstrapMethods.isSome

/-- Modelled from the spec: resolve the this-class index against the
pool.  The index is dereferenced only here, lazily; an index that is out
of range, falls on the phantom slot after a 64-bit entry, or names an
entry that is not a class reference fails with `DanglingIndex` (spec
sections 7 and 8). -/
def ClassFile.ResolveThisClass (c : ClassFile) : Except JErr ConstPoolIndex :=
  match c.ConstantPool.lookup c.ThisClass with
  | some (.classRef i) => .ok i
  | _ => .error .danglingIndex

/-! ## Concrete inputs used by witnesses and counterexamples -/

/-- A minimal structurally well-formed class file image: magic, version
0.51, a pool declaring two slots holding one UTF8 entry, flags, a
this-class index 5 that points outside the pool, super-class 0 and empty
interface, field, method and attribute tables. -/
def exDangling : List Nat :=
  [0xCA, 0xFE, 0xBA, 0xBE, 0, 0, 0, 0x33, 0, 2, 1, 0, 1, 0x41,
   0, 0x21, 0, 5, 0, 0, 0, 0, 0, 0, 0, 0, 0, 0]

/-- The class file value that `Parse` returns on `exDangling`. -/
def cfDangling : ClassFile :=
  ⟨0xCAFEBABE, 0, 0x33, 2, [.utf8 [0x41]], 0x21, 5, 0, [], [], [], []⟩

/-- The bytes of `exDangling` before the this-class index. -/
def exDanglingPre : List Nat :=
  [0xCA, 0xFE, 0xBA, 0xBE, 0, 0, 0, 0x33, 0, 2, 1, 0, 1, 0x41, 0, 0x21]

/-- The bytes of `exDangling` after the this-class index. -/
def exDanglingSuf : List Nat := [0, 0, 0, 0, 0, 0, 0, 0, 0, 0]

/-- A class file image whose declared constant-pool size is zero: the
pool loop fills slots 1 through N - 1, so nothing is read and decoding
succeeds with an empty pool. -/
def exZeroPool : List Nat :=
  [0xCA, 0xFE, 0xBA, 0xBE, 0, 0, 0, 0x33, 0, 0,
   0, 0x21, 0, 5, 0, 0, 0, 0, 0, 0, 0, 0, 0, 0]

/-- The class file value that `Parse` returns on `exZeroPool`. -/
def cfZeroPool : ClassFile :=
  ⟨0xCAFEBABE, 0, 0x33, 0, [], 0x21, 5, 0, [], [], [], []⟩

/-- A pool image declaring four slots: a UTF8 entry in slot 1 and a long
entry occupying slots 2 and 3. -/
def exWidePool : List Nat :=
  [1, 0, 1, 0x41, 5, 0, 0, 0, 0, 0, 0, 0, 9]

/-- The entries decoded from `exWidePool`. -/
def cpWide : ConstantPool := [.utf8 [0x41], .long 9]

/-- A pool for attribute decoding tests: slot 1 names ConstantValue and
slot 2 names StackMapTable. -/
def cpAttrNames : ConstantPool := [.utf8 nameConstantValue, .utf8 nameStackMapTable]

/-- An attribute record naming ConstantValue whose declared length was
shortened to 1 while its two byte payload was left untouched. -/
def exShortLenAttr : List Nat := [0, 1, 0, 0, 0, 1, 0, 5]

/-- An attribute record naming StackMapTable (not in the decoder table)
with a two byte opaque payload. -/
def exUnknownAttr : List Nat := [0, 2, 0, 0, 0, 2, 7, 8]

/-! ## Inversion and stream lemmas -/

theorem bind_eq_ok {α β : Type} {x : Except JErr α} {f : α → Except JErr β} {b : β} :
    x >>= f = .ok b ↔ ∃ a, x = .ok a ∧ f a = .ok b := by
  cases x <;> simp [Bind.bind, Except.bind]

theorem bind_eq_error {α β : Type} {x : Except JErr α} {f : α → Except JErr β} {e : JErr} :
    x >>= f = .error e ↔ x = .error e ∨ ∃ a, x = .ok a ∧ f a = .error e := by
  cases x <;> simp [Bind.bind, Except.bind]

theorem bytes_suffix {a b : List Nat} (h : Bytes (a ++ b)) : Bytes b :=
  fun x hx => h x (List.mem_append_right a hx)

/-- Every element of a byte stream equality tail is still a byte stream:
convenience form taking the witnessed equation. -/
theorem bytes_of_eq_append {p r s : List Nat} (e : p ++ r = s) (hb : Bytes s) :
    Bytes r := bytes_suffix (e.symm ▸ hb)

theorem readU1_rt {s : List Nat} {n : Nat} {r : List Nat} (hb : Bytes s)
    (h : readU1 s = .ok (n, r)) : writeU1 n ++ r = s ∧ n < 256 := by
  match s with
  | [] => simp [readU1] at h
  | b :: t =>
    simp only [readU1, Except.ok.injEq, Prod.mk.injEq] at h
    obtain ⟨rfl, rfl⟩ := h
    have h0 : b < 256 := hb b (by simp)
    have e0 : b % 256 = b := Nat.mod_eq_of_lt h0
    exact ⟨by simp [writeU1, e0], h0⟩

theorem readU2_rt {s : List Nat} {n : Nat} {r : List Nat} (hb : Bytes s)
    (h : readU2 s = .ok (n, r)) : writeU2 n ++ r = s ∧ n < 65536 := by
  match s with
  | [] => simp [readU2] at h
  | [_] => simp [readU2] at h
  | b1 :: b0 :: t =>
    simp only [readU2, Except.ok.injEq, Prod.mk.injEq] at h
    obtain ⟨rfl, rfl⟩ := h
    have h1 : b1 < 256 := hb b1 (by simp)
    have h0 : b0 < 256 := hb b0 (by simp)
    have e1 : (b1 * 256 + b0) / 256 % 256 = b1 := by omega
    have e0 : (b1 * 256 + b0) % 256 = b0 := by omega
    exact ⟨by simp [writeU2, e1, e0], by omega⟩

theorem readU4_rt {s : List Nat} {n : Nat} {r : List Nat} (hb : Bytes s)
    (h : readU4 s = .ok (n, r)) : writeU4 n ++ r = s ∧ n < 4294967296 := by
  match s with
  | [] => simp [readU4] at h
  | [_] => simp [readU4] at h
  | [_, _] => simp [readU4] at h
  | [_, _, _] => simp [readU4] at h
  | b3 :: b2 :: b1 :: b0 :: t =>
    simp only [readU4, Except.ok.injEq, Prod.mk.injEq] at h
    obtain ⟨rfl, rfl⟩ := h
    have h3 : b3 < 256 := hb b3 (by simp)
    have h2 : b2 < 256 := hb b2 (by simp)
    have h1 : b1 < 256 := hb b1 (by simp)
    have h0 : b0 < 256 := hb b0 (by simp)
    have e3 : (b3 * 16777216 + b2 * 65536 + b1 * 256 + b0) / 16777216 % 256 = b3 := by omega
    have e2 : (b3 * 16777216 + b2 * 65536 + b1 * 256 + b0) / 65536 % 256 = b2 := by omega
    have e1 : (b3 * 16777216 + b2 * 65536 + b1 * 256 + b0) / 256 % 256 = b1 := by omega
    have e0 : (b3 * 16777216 + b2 * 65536 + b1 * 256 + b0) % 256 = b0 := by omega
    exact ⟨by simp [writeU4, e3, e2, e1, e0], by omega⟩

theorem readU8_rt {s : List Nat} {n : Nat} {r : List Nat} (hb : Bytes s)
    (h : readU8 s = .ok (n, r)) : writeU8 n ++ r = s := by
  rw [readU8, bind_eq_ok] at h
  obtain ⟨⟨hi, s1⟩, hhi, h⟩ := h
  rw [bind_eq_ok] at h
  obtain ⟨⟨lo, s2⟩, hlo, h⟩ := h
  simp only [Except.ok.injEq, Prod.mk.injEq] at h
  obtain ⟨hn, hr⟩ := h
  subst hn hr
  obtain ⟨e1, b1⟩ := readU4_rt hb hhi
  have hb1 : Bytes s1 := bytes_of_eq_append e1 hb
  obtain ⟨e2, b2⟩ := readU4_rt hb1 hlo
  have hdiv : (hi * 4294967296 + lo) / 4294967296 = hi := by omega
  have hmod : (hi * 4294967296 + lo) % 4294967296 = lo := by omega
  rw [writeU8, hdiv, hmod, List.append_assoc, e2, e1]

theorem readBytes_rt {n : Nat} {s bs r : List Nat}
    (h : readBytes n s = .ok (bs, r)) : bs ++ r = s ∧ bs.length = n := by
  rw [readBytes] at h
  split at h
  · simp only [Except.ok.injEq, Prod.mk.injEq] at h
    obtain ⟨hbs, hr⟩ := h
    subst hbs hr
    exact ⟨List.take_append_drop n s, List.length_take_of_le (by omega)⟩
  · simp at h

theorem readN_rt {α : Type} {dec : List Nat → Except JErr (α × List Nat)}
    {enc : α → List Nat}
    (hdec : ∀ s v r, Bytes s → dec s = .ok (v, r) → enc v ++ r = s) :
    ∀ n s vs r, Bytes s → readN dec n s = .ok (vs, r) →
      (vs.map enc).flatten ++ r = s ∧ vs.length = n := by
  intro n
  induction n with
  | zero =>
    intro s vs r _ h
    simp only [readN, Except.ok.injEq, Prod.mk.injEq] at h
    obtain ⟨h1, h2⟩ := h
    subst h1 h2
    simp
  | succ m ih =>
    intro s vs r hb h
    rw [readN, bind_eq_ok] at h
    obtain ⟨⟨v, s1⟩, h1, h⟩ := h
    rw [bind_eq_ok] at h
    obtain ⟨⟨vs2, s2⟩, h2, h⟩ := h
    simp only [Except.ok.injEq, Prod.mk.injEq] at h
    obtain ⟨hvs, hr⟩ := h
    subst hvs hr
    have e1 := hdec s v s1 hb h1
    have hb1 : Bytes s1 := bytes_of_eq_append e1 hb
    obtain ⟨e2, el⟩ := ih s1 vs2 s2 hb1 h2
    constructor
    · simp only [List.map_cons, List.flatten_cons, List.append_assoc, e2, e1]
    · simp [el]

/-! ## Constant codec lemmas -/

/-- Canonicality of the constant decoder: a successfully decoded entry
re-encodes to exactly the consumed bytes. -/
theorem decodeConstant_rt {s : List Nat} {c : Constant} {r : List Nat} (hb : Bytes s)
    (h : decodeConstant s = .ok (c, r)) : encodeConstant c ++ r = s := by
  rw [decodeConstant, bind_eq_ok] at h
  obtain ⟨⟨tag, s1⟩, htag, h⟩ := h
  obtain ⟨etag, btag⟩ := readU1_rt hb htag
  have hb1 : Bytes s1 := bytes_of_eq_append etag hb
  have etag2 : tag :: s1 = s := by
    have em : tag % 256 = tag := Nat.mod_eq_of_lt btag
    simpa [writeU1, em] using etag
  dsimp only at h
  by_cases t1 : tag = 1
  · rw [if_pos t1] at h
    subst t1
    rw [bind_eq_ok] at h
    obtain ⟨⟨len, s2⟩, hlen, h⟩ := h
    dsimp only at h
    rw [bind_eq_ok] at h
    obtain ⟨⟨bs, s3⟩, hbs, h⟩ := h
    dsimp only at h
    simp only [Except.ok.injEq, Prod.mk.injEq] at h
    obtain ⟨rfl, rfl⟩ := h
    obtain ⟨e2, _⟩ := readU2_rt hb1 hlen
    obtain ⟨e3, el⟩ := readBytes_rt hbs
    rw [encodeConstant, el, ← etag2, ← e2, ← e3]
    simp [writeU1]
  rw [if_neg t1] at h
  by_cases t3 : tag = 3
  · rw [if_pos t3] at h
    subst t3
    rw [bind_eq_ok] at h
    obtain ⟨⟨v, s2⟩, hv, h⟩ := h
    dsimp only at h
    simp only [Except.ok.injEq, Prod.mk.injEq] at h
    obtain ⟨rfl, rfl⟩ := h
    obtain ⟨e2, _⟩ := readU4_rt hb1 hv
    rw [encodeConstant, ← etag2, ← e2]
    simp [writeU1]
  rw [if_neg t3] at h
  by_cases t4 : tag = 4
  · rw [if_pos t4] at h
    subst t4
    rw [bind_eq_ok] at h
    obtain ⟨⟨v, s2⟩, hv, h⟩ := h
    dsimp only at h
    simp only [Except.ok.injEq, Prod.mk.injEq] at h
    obtain ⟨rfl, rfl⟩ := h
    obtain ⟨e2, _⟩ := readU4_rt hb1 hv
    rw [encodeConstant, ← etag2, ← e2]
    simp [writeU1]
  rw [if_neg t4] at h
  by_cases t5 : tag = 5
  · rw [if_pos t5] at h
    subst t5
    rw [bind_eq_ok] at h
    obtain ⟨⟨v, s2⟩, hv, h⟩ := h
    dsimp only at h
    simp only [Except.ok.injEq, Prod.mk.injEq] at h
    obtain ⟨rfl, rfl⟩ := h
    have e2 := readU8_rt hb1 hv
    rw [encodeConstant, ← etag2, ← e2]
    simp [writeU1]
  rw [if_neg t5] at h
  by_cases t6 : tag = 6
  · rw [if_pos t6] at h
    subst t6
    rw [bind_eq_ok] at h
    obtain ⟨⟨v, s2⟩, hv, h⟩ := h
    dsimp only at h
    simp only [Except.ok.injEq, Prod.mk.injEq] at h
    obtain ⟨rfl, rfl⟩ := h
    have e2 := readU8_rt hb1 hv
    rw [encodeConstant, ← etag2, ← e2]
    simp [writeU1]
  rw [if_neg t6] at h
  by_cases t7 : tag = 7
  · rw [if_pos t7] at h
    subst t7
    rw [bind_eq_ok] at h
    obtain ⟨⟨i, s2⟩, hi, h⟩ := h
    dsimp only at h
    simp only [Except.ok.injEq, Prod.mk.injEq] at h
    obtain ⟨rfl, rfl⟩ := h
    obtain ⟨e2, _⟩ := readU2_rt hb1 hi
    rw [encodeConstant, ← etag2, ← e2]
    simp [writeU1]
  rw [if_neg t7] at h
  by_cases t8 : tag = 8
  · rw [if_pos t8] at h
    subst t8
    rw [bind_eq_ok] at h
    obtain ⟨⟨i, s2⟩, hi, h⟩ := h
    dsimp only at h
    simp only [Except.ok.injEq, Prod.mk.injEq] at h
    obtain ⟨rfl, rfl⟩ := h
    obtain ⟨e2, _⟩ := readU2_rt hb1 hi
    rw [encodeConstant, ← etag2, ← e2]
    simp [writeU1]
  rw [if_neg t8] at h
  by_cases t9 : tag = 9
  · rw [if_pos t9] at h
    subst t9
    rw [bind_eq_ok] at h
    obtain ⟨⟨ci, s2⟩, hci, h⟩ := h
    dsimp only at h
    rw [bind_eq_ok] at h
    obtain ⟨⟨ni, s3⟩, hni, h⟩ := h
    dsimp only at h
    simp only [Except.ok.injEq, Prod.mk.injEq] at h
    obtain ⟨rfl, rfl⟩ := h
    obtain ⟨e2, _⟩ := readU2_rt hb1 hci
    have hb2 : Bytes s2 := bytes_of_eq_append e2 hb1
    obtain ⟨e3, _⟩ := readU2_rt hb2 hni
    rw [encodeConstant, ← etag2, ← e2, ← e3]
    simp [writeU1]
  rw [if_neg t9] at h
  by_cases t10 : tag = 10
  · rw [if_pos t10] at h
    subst t10
    rw [bind_eq_ok] at h
    obtain ⟨⟨ci, s2⟩, hci, h⟩ := h
    dsimp only at h
    rw [bind_eq_ok] at h
    obtain ⟨⟨ni, s3⟩, hni, h⟩ := h
    dsimp only at h
    simp only [Except.ok.injEq, Prod.mk.injEq] at h
    obtain ⟨rfl, rfl⟩ := h
    obtain ⟨e2, _⟩ := readU2_rt hb1 hci
    have hb2 : Bytes s2 := bytes_of_eq_append e2 hb1
    obtain ⟨e3, _⟩ := readU2_rt hb2 hni
    rw [encodeConstant, ← etag2, ← e2, ← e3]
    simp [writeU1]
  rw [if_neg t10] at h
  by_cases t11 : tag = 11
  · rw [if_pos t11] at h
    subst t11
    rw [bind_eq_ok] at h
    obtain ⟨⟨ci, s2⟩, hci, h⟩ := h
    dsimp only at h
    rw [bind_eq_ok] at h
    obtain ⟨⟨ni, s3⟩, hni, h⟩ := h
    dsimp only at h
    simp only [Except.ok.injEq, Prod.mk.injEq] at h
    obtain ⟨rfl, rfl⟩ := h
    obtain ⟨e2, _⟩ := readU2_rt hb1 hci
    have hb2 : Bytes s2 := bytes_of_eq_append e2 hb1
    obtain ⟨e3, _⟩ := readU2_rt hb2 hni
    rw [encodeConstant, ← etag2, ← e2, ← e3]
    simp [writeU1]
  rw [if_neg t11] at h
  by_cases t12 : tag = 12
  · rw [if_pos t12] at h
    subst t12
    rw [bind_eq_ok] at h
    obtain ⟨⟨ci, s2⟩, hci, h⟩ := h
    dsimp only at h
    rw [bind_eq_ok] at h
    obtain ⟨⟨ni, s3⟩, hni, h⟩ := h
    dsimp only at h
    simp only [Except.ok.injEq, Prod.mk.injEq] at h
    obtain ⟨rfl, rfl⟩ := h
    obtain ⟨e2, _⟩ := readU2_rt hb1 hci
    have hb2 : Bytes s2 := bytes_of_eq_append e2 hb1
    obtain ⟨e3, _⟩ := readU2_rt hb2 hni
    rw [encodeConstant, ← etag2, ← e2, ← e3]
    simp [writeU1]
  rw [if_neg t12] at h
  by_cases t15 : tag = 15
  · rw [if_pos t15] at h
    subst t15
    rw [bind_eq_ok] at h
    obtain ⟨⟨k, s2⟩, hk, h⟩ := h
    dsimp only at h
    rw [bind_eq_ok] at h
    obtain ⟨⟨i, s3⟩, hi, h⟩ := h
    dsimp only at h
    simp only [Except.ok.injEq, Prod.mk.injEq] at h
    obtain ⟨rfl, rfl⟩ := h
    obtain ⟨e2, _⟩ := readU1_rt hb1 hk
    have hb2 : Bytes s2 := bytes_of_eq_append e2 hb1
    obtain ⟨e3, _⟩ := readU2_rt hb2 hi
    rw [encodeConstant, ← etag2, ← e2, ← e3]
    simp [writeU1]
  rw [if_neg t15] at h
  by_cases t16 : tag = 16
  · rw [if_pos t16] at h
    subst t16
    rw [bind_eq_ok] at h
    obtain ⟨⟨i, s2⟩, hi, h⟩ := h
    dsimp only at h
    simp only [Except.ok.injEq, Prod.mk.injEq] at h
    obtain ⟨rfl, rfl⟩ := h
    obtain ⟨e2, _⟩ := readU2_rt hb1 hi
    rw [encodeConstant, ← etag2, ← e2]
    simp [writeU1]
  rw [if_neg t16] at h
  by_cases t18 : tag = 18
  · rw [if_pos t18] at h
    subst t18
    rw [bind_eq_ok] at h
    obtain ⟨⟨ci, s2⟩, hci, h⟩ := h
    dsimp only at h
    rw [bind_eq_ok] at h
    obtain ⟨⟨ni, s3⟩, hni, h⟩ := h
    dsimp only at h
    simp only [Except.ok.injEq, Prod.mk.injEq] at h
    obtain ⟨rfl, rfl⟩ := h
    obtain ⟨e2, _⟩ := readU2_rt hb1 hci
    have hb2 : Bytes s2 := bytes_of_eq_append e2 hb1
    obtain ⟨e3, _⟩ := readU2_rt hb2 hni
    rw [encodeConstant, ← etag2, ← e2, ← e3]
    simp [writeU1]
  rw [if_neg t18] at h
  simp at h

/-! ## Constant pool lemmas -/

theorem constWidth_pos (c : Constant) : 1 ≤ constWidth c := by
  cases c <;> simp [constWidth]

theorem constWidth_of_isWide {c : Constant} (h : isWide c = true) : constWidth c = 2 := by
  cases c <;> simp_all [isWide, constWidth]

theorem constWidth_of_not_isWide {c : Constant} (h : isWide c = false) : constWidth c = 1 := by
  cases c <;> simp_all [isWide, constWidth]

theorem sumWidths_nil : sumWidths [] = 0 := rfl

theorem sumWidths_cons (c : Constant) (cs : List Constant) :
    sumWidths (c :: cs) = constWidth c + sumWidths cs := by
  simp [sumWidths]

theorem encodeConstantList_cons (c : Constant) (cs : List Constant) :
    encodeConstantList (c :: cs) = encodeConstant c ++ encodeConstantList cs := by
  simp [encodeConstantList]

/-- The logical slot count of a pool is its entry count plus one extra
slot per 64-bit entry. -/
theorem sumWidths_eq (cs : List Constant) :
    sumWidths cs = cs.length + countWide cs := by
  induction cs with
  | nil => rfl
  | cons c cs ih =>
    rw [sumWidths_cons, ih]
    rcases hw : isWide c with _ | _
    · rw [constWidth_of_not_isWide hw]
      simp [countWide, List.countP_cons, hw]
      omega
    · rw [constWidth_of_isWide hw]
      simp [countWide, List.countP_cons, hw]
      omega

/-- Canonicality and slot accounting of the pool decoder: filling m
logical slots consumes bytes that re-encode exactly, and the decoded
entries occupy exactly m logical slots. -/
theorem decodePool_rt :
    ∀ m s cs r, Bytes s → decodePool m s = .ok (cs, r) →
      encodeConstantList cs ++ r = s ∧ sumWidths cs = m := by
  intro m
  induction m using Nat.strong_induction_on with
  | _ m ih =>
    rcases m with _ | m
    · intro s cs r _ h
      simp only [decodePool, Except.ok.injEq, Prod.mk.injEq] at h
      obtain ⟨rfl, rfl⟩ := h
      exact ⟨by simp [encodeConstantList], rfl⟩
    · intro s cs r hb h
      rw [decodePool, bind_eq_ok] at h
      obtain ⟨⟨c, s1⟩, hc, h⟩ := h
      dsimp only at h
      have ec := decodeConstant_rt hb hc
      have hb1 : Bytes s1 := bytes_of_eq_append ec hb
      split at h
      · -- wide constant: consumes two slots
        rcases m with _ | m'
        · simp at h
        · rw [bind_eq_ok] at h
          obtain ⟨⟨cs2, s2⟩, hcs, h⟩ := h
          dsimp only at h
          simp only [Except.ok.injEq, Prod.mk.injEq] at h
          obtain ⟨rfl, rfl⟩ := h
          obtain ⟨e2, ew⟩ := ih m' (by omega) s1 cs2 s2 hb1 hcs
          refine ⟨?_, ?_⟩
          · rw [encodeConstantList_cons, List.append_assoc, e2, ec]
          · rw [sumWidths_cons, ew, constWidth_of_isWide (by assumption)]
            omega
      · -- narrow constant: consumes one slot
        rw [bind_eq_ok] at h
        obtain ⟨⟨cs2, s2⟩, hcs, h⟩ := h
        dsimp only at h
        simp only [Except.ok.injEq, Prod.mk.injEq] at h
        obtain ⟨rfl, rfl⟩ := h
        obtain ⟨e2, ew⟩ := ih m (by omega) s1 cs2 s2 hb1 hcs
        refine ⟨?_, ?_⟩
        · rw [encodeConstantList_cons, List.append_assoc, e2, ec]
        · rw [sumWidths_cons, ew, constWidth_of_not_isWide (by simp_all)]
          omega

/-- Lookup below the starting slot always fails. -/
theorem lookupFrom_lt_none :
    ∀ (cs : List Constant) (k i : Nat), i < k → lookupFrom k cs i = none := by
  intro cs
  induction cs with
  | nil => intro k i _; rfl
  | cons c cs ih =>
    intro k i hik
    rw [lookupFrom]
    rw [if_neg (by omega)]
    exact ih (k + constWidth c) i (by have := constWidth_pos c; omega)

/-- Every assigned slot is at or above the starting slot. -/
theorem slotsFrom_lb :
    ∀ (cs : List Constant) (k0 k : Nat) (c : Constant),
      (k, c) ∈ slotsFrom k0 cs → k0 ≤ k := by
  intro cs
  induction cs with
  | nil => intro k0 k c h; simp [slotsFrom] at h
  | cons c0 cs ih =>
    intro k0 k c h
    rw [slotsFrom] at h
    rcases List.mem_cons.mp h with h1 | h2
    · simp only [Prod.mk.injEq] at h1
      omega
    · have := ih (k0 + constWidth c0) k c h2
      have := constWidth_pos c0
      omega

/-- The phantom slot directly after a 64-bit entry is never
independently addressable: looking it up fails. -/
theorem lookupFrom_shadow :
    ∀ (cs : List Constant) (k0 k : Nat) (c : Constant),
      (k, c) ∈ slotsFrom k0 cs → isWide c = true →
      lookupFrom k0 cs (k + 1) = none := by
  intro cs
  induction cs with
  | nil => intro k0 k c h _; simp [slotsFrom] at h
  | cons c0 cs ih =>
    intro k0 k c h hw
    rw [slotsFrom] at h
    rw [lookupFrom]
    rcases List.mem_cons.mp h with h1 | h2
    · simp only [Prod.mk.injEq] at h1
      obtain ⟨rfl, rfl⟩ := h1
      rw [if_neg (by omega)]
      rw [constWidth_of_isWide hw]
      exact lookupFrom_lt_none cs (k + 2) (k + 1) (by omega)
    · have hlb := slotsFrom_lb cs (k0 + constWidth c0) k c h2
      have hpos := constWidth_pos c0
      rw [if_neg (by omega)]
      exact ih (k0 + constWidth c0) k c h2 hw

/-! ## Attribute codec lemmas -/

theorem encodeAttrList_eq_flatten (as : List Attribute) :
    encodeAttrList as = (as.map encodeAttr).flatten := by
  induction as with
  | nil => rfl
  | cons a as ih => simp [encodeAttrList, encodeAttr, ih]

theorem decodeCodeException_rt {s : List Nat} {e : CodeException} {r : List Nat}
    (hb : Bytes s) (h : decodeCodeException s = .ok (e, r)) :
    encodeCodeException e ++ r = s := by
  rw [decodeCodeException, bind_eq_ok] at h
  obtain ⟨⟨sp, s1⟩, h1, h⟩ := h
  dsimp only at h
  rw [bind_eq_ok] at h
  obtain ⟨⟨ep, s2⟩, h2, h⟩ := h
  dsimp only at h
  rw [bind_eq_ok] at h
  obtain ⟨⟨hp, s3⟩, h3, h⟩ := h
  dsimp only at h
  rw [bind_eq_ok] at h
  obtain ⟨⟨ct, s4⟩, h4, h⟩ := h
  dsimp only at h
  simp only [Except.ok.injEq, Prod.mk.injEq] at h
  obtain ⟨rfl, rfl⟩ := h
  obtain ⟨e1, _⟩ := readU2_rt hb h1
  have hb1 : Bytes s1 := bytes_of_eq_append e1 hb
  obtain ⟨e2, _⟩ := readU2_rt hb1 h2
  have hb2 : Bytes s2 := bytes_of_eq_append e2 hb1
  obtain ⟨e3, _⟩ := readU2_rt hb2 h3
  have hb3 : Bytes s3 := bytes_of_eq_append e3 hb2
  obtain ⟨e4, _⟩ := readU2_rt hb3 h4
  rw [encodeCodeException, ← e1, ← e2, ← e3, ← e4]
  simp

theorem decodeInnerClass_rt {s : List Nat} {e : InnerClass} {r : List Nat}
    (hb : Bytes s) (h : decodeInnerClass s = .ok (e, r)) :
    encodeInnerClass e ++ r = s := by
  rw [decodeInnerClass, bind_eq_ok] at h
  obtain ⟨⟨ici, s1⟩, h1, h⟩ := h
  dsimp only at h
  rw [bind_eq_ok] at h
  obtain ⟨⟨oci, s2⟩, h2, h⟩ := h
  dsimp only at h
  rw [bind_eq_ok] at h
  obtain ⟨⟨ini, s3⟩, h3, h⟩ := h
  dsimp only at h
  rw [bind_eq_ok] at h
  obtain ⟨⟨af, s4⟩, h4, h⟩ := h
  dsimp only at h
  simp only [Except.ok.injEq, Prod.mk.injEq] at h
  obtain ⟨rfl, rfl⟩ := h
  obtain ⟨e1, _⟩ := readU2_rt hb h1
  have hb1 : Bytes s1 := bytes_of_eq_append e1 hb
  obtain ⟨e2, _⟩ := readU2_rt hb1 h2
  have hb2 : Bytes s2 := bytes_of_eq_append e2 hb1
  obtain ⟨e3, _⟩ := readU2_rt hb2 h3
  have hb3 : Bytes s3 := bytes_of_eq_append e3 hb2
  obtain ⟨e4, _⟩ := readU2_rt hb3 h4
  rw [encodeInnerClass, ← e1, ← e2, ← e3, ← e4]
  simp

theorem decodeLineNumberEntry_rt {s : List Nat} {e : LineNumberEntry} {r : List Nat}
    (hb : Bytes s) (h : decodeLineNumberEntry s = .ok (e, r)) :
    encodeLineNumberEntry e ++ r = s := by
  rw [decodeLineNumberEntry, bind_eq_ok] at h
  obtain ⟨⟨sp, s1⟩, h1, h⟩ := h
  dsimp only at h
  rw [bind_eq_ok] at h
  obtain ⟨⟨ln, s2⟩, h2, h⟩ := h
  dsimp only at h
  simp only [Except.ok.injEq, Prod.mk.injEq] at h
  obtain ⟨rfl, rfl⟩ := h
  obtain ⟨e1, _⟩ := readU2_rt hb h1
  have hb1 : Bytes s1 := bytes_of_eq_append e1 hb
  obtain ⟨e2, _⟩ := readU2_rt hb1 h2
  rw [encodeLineNumberEntry, ← e1, ← e2]
  simp

theorem decodeLocalVariable_rt {s : List Nat} {e : LocalVariable} {r : List Nat}
    (hb : Bytes s) (h : decodeLocalVariable s = .ok (e, r)) :
    encodeLocalVariable e ++ r = s := by
  rw [decodeLocalVariable, bind_eq_ok] at h
  obtain ⟨⟨sp, s1⟩, h1, h⟩ := h
  dsimp only at h
  rw [bind_eq_ok] at h
  obtain ⟨⟨ln, s2⟩, h2, h⟩ := h
  dsimp only at h
  rw [bind_eq_ok] at h
  obtain ⟨⟨ni, s3⟩, h3, h⟩ := h
  dsimp only at h
  rw [bind_eq_ok] at h
  obtain ⟨⟨di, s4⟩, h4, h⟩ := h
  dsimp only at h
  rw [bind_eq_ok] at h
  obtain ⟨⟨ix, s5⟩, h5, h⟩ := h
  dsimp only at h
  simp only [Except.ok.injEq, Prod.mk.injEq] at h
  obtain ⟨rfl, rfl⟩ := h
  obtain ⟨e1, _⟩ := readU2_rt hb h1
  have hb1 : Bytes s1 := bytes_of_eq_append e1 hb
  obtain ⟨e2, _⟩ := readU2_rt hb1 h2
  have hb2 : Bytes s2 := bytes_of_eq_append e2 hb1
  obtain ⟨e3, _⟩ := readU2_rt hb2 h3
  have hb3 : Bytes s3 := bytes_of_eq_append e3 hb2
  obtain ⟨e4, _⟩ := readU2_rt hb3 h4
  have hb4 : Bytes s4 := bytes_of_eq_append e4 hb3
  obtain ⟨e5, _⟩ := readU2_rt hb4 h5
  rw [encodeLocalVariable, ← e1, ← e2, ← e3, ← e4, ← e5]
  simp

theorem decodeBootstrapMethod_rt {s : List Nat} {e : BootstrapMethod} {r : List Nat}
    (hb : Bytes s) (h : decodeBootstrapMethod s = .ok (e, r)) :
    encodeBootstrapMethod e ++ r = s := by
  rw [decodeBootstrapMethod, bind_eq_ok] at h
  obtain ⟨⟨mr, s1⟩, h1, h⟩ := h
  dsimp only at h
  rw [bind_eq_ok] at h
  obtain ⟨⟨n, s2⟩, h2, h⟩ := h
  dsimp only at h
  rw [bind_eq_ok] at h
  obtain ⟨⟨args, s3⟩, h3, h⟩ := h
  dsimp only at h
  simp only [Except.ok.injEq, Prod.mk.injEq] at h
  obtain ⟨rfl, rfl⟩ := h
  obtain ⟨e1, _⟩ := readU2_rt hb h1
  have hb1 : Bytes s1 := bytes_of_eq_append e1 hb
  obtain ⟨e2, _⟩ := readU2_rt hb1 h2
  have hb2 : Bytes s2 := bytes_of_eq_append e2 hb1
  obtain ⟨e3, el⟩ :=
    readN_rt (fun s v r hbv hv => (readU2_rt hbv hv).1) n s2 args s3 hb2 h3
  rw [encodeBootstrapMethod, el, ← e1, ← e2, ← e3]
  simp

/-- Canonicality of the variant decoders: a successful known-variant
decode produces an attribute whose payload encoding is exactly the
consumed bytes and whose stored name index is the one supplied.  The
`recur` decoder used for attributes nested inside Code must itself be
canonical. -/
theorem runVariantDecoder_rt
    {recur : List Nat → Except JErr (Attribute × List Nat)}
    (hrec : ∀ s a r, Bytes s → recur s = .ok (a, r) → encodeAttr a ++ r = s)
    {name : List Nat} {ni len : Nat} {s : List Nat} {a : Attribute} {r : List Nat}
    (hb : Bytes s) (h : runVariantDecoder recur name ni len s = .ok (a, r)) :
    encodeAttrPayload a ++ r = s ∧ a.NameIndex = ni := by
  rw [runVariantDecoder] at h
  by_cases t1 : name = nameConstantValue
  · rw [if_pos t1] at h
    rw [bind_eq_ok] at h
    obtain ⟨⟨vi, s1⟩, h1, h⟩ := h
    dsimp only at h
    simp only [Except.ok.injEq, Prod.mk.injEq] at h
    obtain ⟨rfl, rfl⟩ := h
    obtain ⟨e1, _⟩ := readU2_rt hb h1
    refine ⟨?_, rfl⟩
    simp only [encodeAttrPayload]
    rw [← e1]
  rw [if_neg t1] at h
  by_cases t2 : name = nameCode
  · rw [if_pos t2] at h
    rw [bind_eq_ok] at h
    obtain ⟨⟨ms, s1⟩, h1, h⟩ := h
    dsimp only at h
    rw [bind_eq_ok] at h
    obtain ⟨⟨ml, s2⟩, h2, h⟩ := h
    dsimp only at h
    rw [bind_eq_ok] at h
    obtain ⟨⟨cl, s3⟩, h3, h⟩ := h
    dsimp only at h
    rw [bind_eq_ok] at h
    obtain ⟨⟨bc, s4⟩, h4, h⟩ := h
    dsimp only at h
    rw [bind_eq_ok] at h
    obtain ⟨⟨en, s5⟩, h5, h⟩ := h
    dsimp only at h
    rw [bind_eq_ok] at h
    obtain ⟨⟨et, s6⟩, h6, h⟩ := h
    dsimp only at h
    rw [bind_eq_ok] at h
    obtain ⟨⟨an, s7⟩, h7, h⟩ := h
    dsimp only at h
    rw [bind_eq_ok] at h
    obtain ⟨⟨ats, s8⟩, h8, h⟩ := h
    dsimp only at h
    simp only [Except.ok.injEq, Prod.mk.injEq] at h
    obtain ⟨rfl, rfl⟩ := h
    obtain ⟨e1, _⟩ := readU2_rt hb h1
    have hb1 : Bytes s1 := bytes_of_eq_append e1 hb
    obtain ⟨e2, _⟩ := readU2_rt hb1 h2
    have hb2 : Bytes s2 := bytes_of_eq_append e2 hb1
    obtain ⟨e3, _⟩ := readU4_rt hb2 h3
    have hb3 : Bytes s3 := bytes_of_eq_append e3 hb2
    obtain ⟨e4, el4⟩ := readBytes_rt h4
    have hb4 : Bytes s4 := bytes_of_eq_append e4 hb3
    obtain ⟨e5, _⟩ := readU2_rt hb4 h5
    have hb5 : Bytes s5 := bytes_of_eq_append e5 hb4
    obtain ⟨e6, el6⟩ :=
      readN_rt (fun s v r hbv hv => decodeCodeException_rt hbv hv) en s5 et s6 hb5 h6
    have hb6 : Bytes s6 := bytes_of_eq_append e6 hb5
    obtain ⟨e7, _⟩ := readU2_rt hb6 h7
    have hb7 : Bytes s7 := bytes_of_eq_append e7 hb6
    obtain ⟨e8, el8⟩ := readN_rt hrec an s7 ats s8 hb7 h8
    refine ⟨?_, rfl⟩
    simp only [encodeAttrPayload]
    rw [encodeAttrList_eq_flatten, el4, el6, el8, ← e1, ← e2, ← e3, ← e4, ← e5, ← e6, ← e7, ← e8]
    simp
  rw [if_neg t2] at h
  by_cases t3 : name = nameExceptions
  · rw [if_pos t3] at h
    rw [bind_eq_ok] at h
    obtain ⟨⟨n, s1⟩, h1, h⟩ := h
    dsimp only at h
    rw [bind_eq_ok] at h
    obtain ⟨⟨t, s2⟩, h2, h⟩ := h
    dsimp only at h
    simp only [Except.ok.injEq, Prod.mk.injEq] at h
    obtain ⟨rfl, rfl⟩ := h
    obtain ⟨e1, _⟩ := readU2_rt hb h1
    have hb1 : Bytes s1 := bytes_of_eq_append e1 hb
    obtain ⟨e2, el⟩ := readN_rt (fun s v r hbv hv => (readU2_rt hbv hv).1) n s1 t s2 hb1 h2
    refine ⟨?_, rfl⟩
    simp only [encodeAttrPayload]
    rw [el, ← e1, ← e2]
    simp
  rw [if_neg t3] at h
  by_cases t4 : name = nameInnerClasses
  · rw [if_pos t4] at h
    rw [bind_eq_ok] at h
    obtain ⟨⟨n, s1⟩, h1, h⟩ := h
    dsimp only at h
    rw [bind_eq_ok] at h
    obtain ⟨⟨t, s2⟩, h2, h⟩ := h
    dsimp only at h
    simp only [Except.ok.injEq, Prod.mk.injEq] at h
    obtain ⟨rfl, rfl⟩ := h
    obtain ⟨e1, _⟩ := readU2_rt hb h1
    have hb1 : Bytes s1 := bytes_of_eq_append e1 hb
    obtain ⟨e2, el⟩ := readN_rt (fun s v r hbv hv => decodeInnerClass_rt hbv hv) n s1 t s2 hb1 h2
    refine ⟨?_, rfl⟩
    simp only [encodeAttrPayload]
    rw [el, ← e1, ← e2]
    simp
  rw [if_neg t4] at h
  by_cases t5 : name = nameEnclosingMethod
  · rw [if_pos t5] at h
    rw [bind_eq_ok] at h
    obtain ⟨⟨ci, s1⟩, h1, h⟩ := h
    dsimp only at h
    rw [bind_eq_ok] at h
    obtain ⟨⟨mi, s2⟩, h2, h⟩ := h
    dsimp only at h
    simp only [Except.ok.injEq, Prod.mk.injEq] at h
    obtain ⟨rfl, rfl⟩ := h
    obtain ⟨e1, _⟩ := readU2_rt hb h1
    have hb1 : Bytes s1 := bytes_of_eq_append e1 hb
    obtain ⟨e2, _⟩ := readU2_rt hb1 h2
    refine ⟨?_, rfl⟩
    simp only [encodeAttrPayload]
    rw [← e1, ← e2]
    simp
  rw [if_neg t5] at h
  by_cases t6 : name = nameSynthetic
  · rw [if_pos t6] at h
    simp only [Except.ok.injEq, Prod.mk.injEq] at h
    obtain ⟨rfl, rfl⟩ := h
    exact ⟨by simp [encodeAttrPayload], rfl⟩
  rw [if_neg t6] at h
  by_cases t7 : name = nameSignature
  · rw [if_pos t7] at h
    rw [bind_eq_ok] at h
    obtain ⟨⟨vi, s1⟩, h1, h⟩ := h
    dsimp only at h
    simp only [Except.ok.injEq, Prod.mk.injEq] at h
    obtain ⟨rfl, rfl⟩ := h
    obtain ⟨e1, _⟩ := readU2_rt hb h1
    refine ⟨?_, rfl⟩
    simp only [encodeAttrPayload]
    rw [← e1]
  rw [if_neg t7] at h
  by_cases t8 : name = nameSourceFile
  · rw [if_pos t8] at h
    rw [bind_eq_ok] at h
    obtain ⟨⟨vi, s1⟩, h1, h⟩ := h
    dsimp only at h
    simp only [Except.ok.injEq, Prod.mk.injEq] at h
    obtain ⟨rfl, rfl⟩ := h
    obtain ⟨e1, _⟩ := readU2_rt hb h1
    refine ⟨?_, rfl⟩
    simp only [encodeAttrPayload]
    rw [← e1]
  rw [if_neg t8] at h
  by_cases t9 : name = nameSourceDebugExtension
  · rw [if_pos t9] at h
    rw [bind_eq_ok] at h
    obtain ⟨⟨bs, s1⟩, h1, h⟩ := h
    dsimp only at h
    simp only [Except.ok.injEq, Prod.mk.injEq] at h
    obtain ⟨rfl, rfl⟩ := h
    obtain ⟨e1, _⟩ := readBytes_rt h1
    refine ⟨?_, rfl⟩
    simp only [encodeAttrPayload]
    rw [e1]
  rw [if_neg t9] at h
  by_cases t10 : name = nameLineNumberTable
  · rw [if_pos t10] at h
    rw [bind_eq_ok] at h
    obtain ⟨⟨n, s1⟩, h1, h⟩ := h
    dsimp only at h
    rw [bind_eq_ok] at h
    obtain ⟨⟨t, s2⟩, h2, h⟩ := h
    dsimp only at h
    simp only [Except.ok.injEq, Prod.mk.injEq] at h
    obtain ⟨rfl, rfl⟩ := h
    obtain ⟨e1, _⟩ := readU2_rt hb h1
    have hb1 : Bytes s1 := bytes_of_eq_append e1 hb
    obtain ⟨e2, el⟩ := readN_rt (fun s v r hbv hv => decodeLineNumberEntry_rt hbv hv) n s1 t s2 hb1 h2
    refine ⟨?_, rfl⟩
    simp only [encodeAttrPayload]
    rw [el, ← e1, ← e2]
    simp
  rw [if_neg t10] at h
  by_cases t11 : name = nameLocalVariableTable
  · rw [if_pos t11] at h
    rw [bind_eq_ok] at h
    obtain ⟨⟨n, s1⟩, h1, h⟩ := h
    dsimp only at h
    rw [bind_eq_ok] at h
    obtain ⟨⟨t, s2⟩, h2, h⟩ := h
    dsimp only at h
    simp only [Except.ok.injEq, Prod.mk.injEq] at h
    obtain ⟨rfl, rfl⟩ := h
    obtain ⟨e1, _⟩ := readU2_rt hb h1
    have hb1 : Bytes s1 := bytes_of_eq_append e1 hb
    obtain ⟨e2, el⟩ := readN_rt (fun s v r hbv hv => decodeLocalVariable_rt hbv hv) n s1 t s2 hb1 h2
    refine ⟨?_, rfl⟩
    simp only [encodeAttrPayload]
    rw [el, ← e1, ← e2]
    simp
  rw [if_neg t11] at h
  by_cases t12 : name = nameLocalVariableTypeTable
  · rw [if_pos t12] at h
    rw [bind_eq_ok] at h
    obtain ⟨⟨n, s1⟩, h1, h⟩ := h
    dsimp only at h
    rw [bind_eq_ok] at h
    obtain ⟨⟨t, s2⟩, h2, h⟩ := h
    dsimp only at h
    simp only [Except.ok.injEq, Prod.mk.injEq] at h
    obtain ⟨rfl, rfl⟩ := h
    obtain ⟨e1, _⟩ := readU2_rt hb h1
    have hb1 : Bytes s1 := bytes_of_eq_append e1 hb
    obtain ⟨e2, el⟩ := readN_rt (fun s v r hbv hv => decodeLocalVariable_rt hbv hv) n s1 t s2 hb1 h2
    refine ⟨?_, rfl⟩
    simp only [encodeAttrPayload]
    rw [el, ← e1, ← e2]
    simp
  rw [if_neg t12] at h
  by_cases t13 : name = nameDeprecated
  · rw [if_pos t13] at h
    simp only [Except.ok.injEq, Prod.mk.injEq] at h
    obtain ⟨rfl, rfl⟩ := h
    exact ⟨by simp [encodeAttrPayload], rfl⟩
  rw [if_neg t13] at h
  by_cases t14 : name = nameBootstrapMethods
  · rw [if_pos t14] at h
    rw [bind_eq_ok] at h
    obtain ⟨⟨n, s1⟩, h1, h⟩ := h
    dsimp only at h
    rw [bind_eq_ok] at h
    obtain ⟨⟨t, s2⟩, h2, h⟩ := h
    dsimp only at h
    simp only [Except.ok.injEq, Prod.mk.injEq] at h
    obtain ⟨rfl, rfl⟩ := h
    obtain ⟨e1, _⟩ := readU2_rt hb h1
    have hb1 : Bytes s1 := bytes_of_eq_append e1 hb
    obtain ⟨e2, el⟩ := readN_rt (fun s v r hbv hv => decodeBootstrapMethod_rt hbv hv) n s1 t s2 hb1 h2
    refine ⟨?_, rfl⟩
    simp only [encodeAttrPayload]
    rw [el, ← e1, ← e2]
    simp
  rw [if_neg t14] at h
  simp at h

/-- Canonicality of the attribute decoder: a successfully decoded
attribute re-encodes (with its length field recomputed from the payload)
to exactly the consumed bytes. -/
theorem decodeAttr_rt :
    ∀ (f : Nat) (pool : ConstantPool) (s : List Nat) (a : Attribute) (r : List Nat),
      Bytes s → decodeAttr f pool s = .ok (a, r) → encodeAttr a ++ r = s := by
  intro f
  induction f with
  | zero =>
    intro pool s a r _ h
    simp [decodeAttr] at h
  | succ f ih =>
    intro pool s a r hb h
    rw [decodeAttr, bind_eq_ok] at h
    obtain ⟨⟨ni, s1⟩, hni, h⟩ := h
    dsimp only at h
    rw [bind_eq_ok] at h
    obtain ⟨⟨len, s2⟩, hlen, h⟩ := h
    dsimp only at h
    obtain ⟨e1, _⟩ := readU2_rt hb hni
    have hb1 : Bytes s1 := bytes_of_eq_append e1 hb
    obtain ⟨e2, _⟩ := readU4_rt hb1 hlen
    have hb2 : Bytes s2 := bytes_of_eq_append e2 hb1
    split at h
    · -- the name index resolved to a UTF8 entry
      split at h
      · -- known name: variant decoder plus length check
        rw [bind_eq_ok] at h
        obtain ⟨⟨a0, s3⟩, hrun, h⟩ := h
        dsimp only at h
        split at h
        · rename_i hcheck
          simp only [Except.ok.injEq, Prod.mk.injEq] at h
          obtain ⟨rfl, rfl⟩ := h
          obtain ⟨ep, eni⟩ :=
            runVariantDecoder_rt (fun s a r hbv hv => ih pool s a r hbv hv) hb2 hrun
          have hlen2 : (encodeAttrPayload a0).length = len := by
            have hl := congrArg List.length ep
            simp only [List.length_append] at hl
            omega
          rw [encodeAttr, eni, hlen2, ← e1, ← e2, ← ep]
          simp
        · simp at h
      · -- unknown name: raw byte run
        rw [bind_eq_ok] at h
        obtain ⟨⟨info, s3⟩, hinfo, h⟩ := h
        dsimp only at h
        simp only [Except.ok.injEq, Prod.mk.injEq] at h
        obtain ⟨rfl, rfl⟩ := h
        obtain ⟨e3, el3⟩ := readBytes_rt hinfo
        rw [encodeAttr]
        simp only [Attribute.NameIndex, encodeAttrPayload]
        rw [el3, ← e1, ← e2, ← e3]
        simp
    · simp at h

/-- Canonicality of the field and method decoder: a successfully decoded
record re-encodes (attribute count recomputed) to the consumed bytes. -/
theorem decodeMember_rt {fuel : Nat} {pool : ConstantPool} {s : List Nat}
    {m : Member} {r : List Nat}
    (hb : Bytes s) (h : decodeMember fuel pool s = .ok (m, r)) :
    encodeMember m ++ r = s := by
  rw [decodeMember, bind_eq_ok] at h
  obtain ⟨⟨af, s1⟩, h1, h⟩ := h
  dsimp only at h
  rw [bind_eq_ok] at h
  obtain ⟨⟨ni, s2⟩, h2, h⟩ := h
  dsimp only at h
  rw [bind_eq_ok] at h
  obtain ⟨⟨di, s3⟩, h3, h⟩ := h
  dsimp only at h
  rw [bind_eq_ok] at h
  obtain ⟨⟨n, s4⟩, h4, h⟩ := h
  dsimp only at h
  rw [bind_eq_ok] at h
  obtain ⟨⟨ats, s5⟩, h5, h⟩ := h
  dsimp only at h
  simp only [Except.ok.injEq, Prod.mk.injEq] at h
  obtain ⟨rfl, rfl⟩ := h
  obtain ⟨e1, _⟩ := readU2_rt hb h1
  have hb1 : Bytes s1 := bytes_of_eq_append e1 hb
  obtain ⟨e2, _⟩ := readU2_rt hb1 h2
  have hb2 : Bytes s2 := bytes_of_eq_append e2 hb1
  obtain ⟨e3, _⟩ := readU2_rt hb2 h3
  have hb3 : Bytes s3 := bytes_of_eq_append e3 hb2
  obtain ⟨e4, _⟩ := readU2_rt hb3 h4
  have hb4 : Bytes s4 := bytes_of_eq_append e4 hb3
  obtain ⟨e5, el5⟩ :=
    readN_rt (fun s a r hbv hv => decodeAttr_rt fuel pool s a r hbv hv) n s4 ats s5 hb4 h5
  rw [encodeMember]
  dsimp only
  rw [encodeAttrList_eq_flatten, el5, ← e1, ← e2, ← e3, ← e4, ← e5]
  simp

set_option maxHeartbeats 1600000 in
/-- Master canonicality lemma for the class file decoder: a successful
parse records the declared pool size and the decoded pool with matching
slot accounting, and, whenever the declared pool size is at least one,
re-encoding (all counts recomputed) reproduces the consumed bytes. -/
theorem Parse_rt {s : List Nat} {cf : ClassFile} {r : List Nat}
    (hb : Bytes s) (h : Parse s = .ok (cf, r)) :
    sumWidths cf.ConstantPool = cf.ConstPoolSize - 1 ∧
      (1 ≤ cf.ConstPoolSize → cf.Dump ++ r = s) := by
  rw [Parse, bind_eq_ok] at h
  obtain ⟨⟨magic, s1⟩, h0, h⟩ := h
  dsimp only at h
  split at h
  · rw [bind_eq_ok] at h
    obtain ⟨⟨minor, s2⟩, h1, h⟩ := h
    dsimp only at h
    rw [bind_eq_ok] at h
    obtain ⟨⟨major, s3⟩, h2, h⟩ := h
    dsimp only at h
    rw [bind_eq_ok] at h
    obtain ⟨⟨poolSize, s4⟩, h3, h⟩ := h
    dsimp only at h
    rw [bind_eq_ok] at h
    obtain ⟨⟨pool, s5⟩, h4, h⟩ := h
    dsimp only at h
    rw [bind_eq_ok] at h
    obtain ⟨⟨flags, s6⟩, h5, h⟩ := h
    dsimp only at h
    rw [bind_eq_ok] at h
    obtain ⟨⟨thisClass, s7⟩, h6, h⟩ := h
    dsimp only at h
    rw [bind_eq_ok] at h
    obtain ⟨⟨superClass, s8⟩, h7, h⟩ := h
    dsimp only at h
    rw [bind_eq_ok] at h
    obtain ⟨⟨icount, s9⟩, h8, h⟩ := h
    dsimp only at h
    rw [bind_eq_ok] at h
    obtain ⟨⟨ifs, s10⟩, h9, h⟩ := h
    dsimp only at h
    rw [bind_eq_ok] at h
    obtain ⟨⟨fcount, s11⟩, h10, h⟩ := h
    dsimp only at h
    rw [bind_eq_ok] at h
    obtain ⟨⟨flds, s12⟩, h11, h⟩ := h
    dsimp only at h
    rw [bind_eq_ok] at h
    obtain ⟨⟨mcount, s13⟩, h12, h⟩ := h
    dsimp only at h
    rw [bind_eq_ok] at h
    obtain ⟨⟨mths, s14⟩, h13, h⟩ := h
    dsimp only at h
    rw [bind_eq_ok] at h
    obtain ⟨⟨acount, s15⟩, h14, h⟩ := h
    dsimp only at h
    rw [bind_eq_ok] at h
    obtain ⟨⟨ats, s16⟩, h15, h⟩ := h
    dsimp only at h
    simp only [Except.ok.injEq, Prod.mk.injEq] at h
    obtain ⟨rfl, rfl⟩ := h
    obtain ⟨e0, _⟩ := readU4_rt hb h0
    have hb0 : Bytes s1 := bytes_of_eq_append e0 hb
    obtain ⟨e1, _⟩ := readU2_rt hb0 h1
    have hb1 : Bytes s2 := bytes_of_eq_append e1 hb0
    obtain ⟨e2, _⟩ := readU2_rt hb1 h2
    have hb2 : Bytes s3 := bytes_of_eq_append e2 hb1
    obtain ⟨e3, _⟩ := readU2_rt hb2 h3
    have hb3 : Bytes s4 := bytes_of_eq_append e3 hb2
    obtain ⟨e4, ew⟩ := decodePool_rt (poolSize - 1) s4 pool s5 hb3 h4
    have hb4 : Bytes s5 := bytes_of_eq_append e4 hb3
    obtain ⟨e5, _⟩ := readU2_rt hb4 h5
    have hb5 : Bytes s6 := bytes_of_eq_append e5 hb4
    obtain ⟨e6, _⟩ := readU2_rt hb5 h6
    have hb6 : Bytes s7 := bytes_of_eq_append e6 hb5
    obtain ⟨e7, _⟩ := readU2_rt hb6 h7
    have hb7 : Bytes s8 := bytes_of_eq_append e7 hb6
    obtain ⟨e8, _⟩ := readU2_rt hb7 h8
    have hb8 : Bytes s9 := bytes_of_eq_append e8 hb7
    obtain ⟨e9, l9⟩ :=
      readN_rt (fun s v r hbv hv => (readU2_rt hbv hv).1) icount s9 ifs s10 hb8 h9
    have hb9 : Bytes s10 := bytes_of_eq_append e9 hb8
    obtain ⟨e10, _⟩ := readU2_rt hb9 h10
    have hb10 : Bytes s11 := bytes_of_eq_append e10 hb9
    obtain ⟨e11, l11⟩ :=
      readN_rt (fun s v r hbv hv => decodeMember_rt hbv hv) fcount s11 flds s12 hb10 h11
    have hb11 : Bytes s12 := bytes_of_eq_append e11 hb10
    obtain ⟨e12, _⟩ := readU2_rt hb11 h12
    have hb12 : Bytes s13 := bytes_of_eq_append e12 hb11
    obtain ⟨e13, l13⟩ :=
      readN_rt (fun s v r hbv hv => decodeMember_rt hbv hv) mcount s13 mths s14 hb12 h13
    have hb13 : Bytes s14 := bytes_of_eq_append e13 hb12
    obtain ⟨e14, _⟩ := readU2_rt hb13 h14
    have hb14 : Bytes s15 := bytes_of_eq_append e14 hb13
    obtain ⟨e15, l15⟩ :=
      readN_rt (fun s9 a9 r9 hbv hv => decodeAttr_rt (s.length + 1) pool s9 a9 r9 hbv hv)
        acount s15 ats s16 hb14 h15
    refine ⟨ew, fun hn => ?_⟩
    have hsize : ConstantPool.size pool = poolSize := by
      rw [ConstantPool.size, ew]
      simp only at hn
      omega
    rw [ClassFile.Dump]
    dsimp only
    rw [hsize, l9, l11, l13, l15]
    simp only [encodeMemberList]
    rw [encodeAttrList_eq_flatten, ← e0, ← e1, ← e2, ← e3, ← e4, ← e5, ← e6, ← e7,
      ← e8, ← e9, ← e10, ← e11, ← e12, ← e13, ← e14, ← e15]
    simp
  · simp at h

/-! ## Evaluation helpers -/

theorem ok_bind {α β : Type} (a : α) (f : α → Except JErr β) :
    (Except.ok a >>= f) = f a := rfl

theorem error_bind {α β : Type} (e : JErr) (f : α → Except JErr β) :
    (Except.error e >>= f : Except JErr β) = .error e := rfl

/-- Reading back a written 16-bit integer recovers it. -/
theorem readU2_writeU2 {n : Nat} (h : n < 65536) (r : List Nat) :
    readU2 (writeU2 n ++ r) = .ok (n, r) := by
  simp only [writeU2, List.cons_append, List.nil_append, readU2, Except.ok.injEq,
    Prod.mk.injEq, and_true]
  omega

/-- Reading back a written 32-bit integer recovers it. -/
theorem readU4_writeU4 {n : Nat} (h : n < 4294967296) (r : List Nat) :
    readU4 (writeU4 n ++ r) = .ok (n, r) := by
  simp only [writeU4, List.cons_append, List.nil_append, readU4, Except.ok.injEq,
    Prod.mk.injEq, and_true]
  omega

/-! ## Claim theorems -/

/-- C5: for every input whose first four bytes differ from 0xCAFEBABE,
decode fails with BadMagic, and no byte beyond the 4-byte magic prefix
is consumed from the source before that failure - the result is the
same for every continuation of the stream after those four bytes. -/
theorem c5_bad_magic (b3 b2 b1 b0 : Nat) (rest : List Nat)
    (h : b3 * 16777216 + b2 * 65536 + b1 * 256 + b0 ≠ 0xCAFEBABE) :
    Parse (b3 :: b2 :: b1 :: b0 :: rest) = .error .badMagic := by
  rw [Parse]
  simp only [readU4, ok_bind]
  rw [if_neg h]

/-- Witness for C5 at a concrete input: an all-zero prefix is rejected. -/
theorem c5_bad_magic_witness : Parse [0, 0, 0, 0] = .error .badMagic :=
  c5_bad_magic 0 0 0 0 [] (by decide)

/-- C4: for every attribute whose variant decoder consumes a number of
bytes different from the declared 4-byte length field, decode fails with
MalformedAttribute; it never silently misaligns subsequent reads. -/
theorem c4_length_mismatch (f : Nat) (pool : ConstantPool) (ni len : Nat)
    (name s2 : List Nat) (a : Attribute) (s3 : List Nat)
    (hni : ni < 65536) (hlen : len < 4294967296)
    (hlook : pool.lookup ni = some (.utf8 name))
    (hknown : isKnownAttrName name = true)
    (hrun : runVariantDecoder (decodeAttr f pool) name ni len s2 = .ok (a, s3))
    (hmis : s2.length - s3.length ≠ len) :
    decodeAttr (f + 1) pool (writeU2 ni ++ writeU4 len ++ s2) =
      .error .malformedAttribute := by
  rw [decodeAttr, List.append_assoc]
  simp [readU2_writeU2 hni, readU4_writeU4 hlen, ok_bind, hlook, hknown, hrun, hmis]

/-- Witness for C4 at a concrete input: a ConstantValue attribute whose
declared length was shortened to 1 (payload untouched) is rejected. -/
theorem c4_length_mismatch_witness :
    decodeAttr 1 cpAttrNames exShortLenAttr = .error .malformedAttribute :=
  c4_length_mismatch 0 cpAttrNames 1 1 nameConstantValue [0, 5]
    (.constantValue 1 5) [] (by decide) (by decide) rfl (by decide) rfl (by decide)

/-- C10: the attribute kinds outside the supported set are absent from
the static name-to-decoder table, and decoding an attribute bearing any
name outside the table (given the declared payload is available) still
succeeds, carrying it as the raw-bytes unknown variant. -/
theorem c10_unsupported_attr_kinds :
    (isKnownAttrName nameStackMapTable = false ∧
     isKnownAttrName nameRuntimeVisibleAnnotations = false ∧
     isKnownAttrName nameRuntimeInvisibleAnnotations = false ∧
     isKnownAttrName nameRuntimeVisibleParameterAnnotations = false ∧
     isKnownAttrName nameRuntimeInvisibleParameterAnnotations = false ∧
     isKnownAttrName nameAnnotationDefault = false) ∧
    ∀ (f : Nat) (pool : ConstantPool) (ni len : Nat) (name s2 : List Nat),
      ni < 65536 → len < 4294967296 →
      pool.lookup ni = some (.utf8 name) →
      isKnownAttrName name = false →
      len ≤ s2.length →
      decodeAttr (f + 1) pool (writeU2 ni ++ writeU4 len ++ s2) =
        .ok (.unknownAttr ni (s2.take len), s2.drop len) := by
  refine ⟨by decide, ?_⟩
  intro f pool ni len name s2 hni hlen hlook hunk hle
  rw [decodeAttr, List.append_assoc]
  simp [readU2_writeU2 hni, readU4_writeU4 hlen, ok_bind, hlook, hunk, readBytes, hle]

/-- Witness for C10 at a concrete input: a StackMapTable attribute is
decoded as the unknown variant carrying its two payload bytes. -/
theorem c10_unsupported_attr_kinds_witness :
    decodeAttr 1 cpAttrNames exUnknownAttr = .ok (.unknownAttr 2 [7, 8], []) :=
  c10_unsupported_attr_kinds.2 0 cpAttrNames 2 2 nameStackMapTable [7, 8]
    (by decide) (by decide) rfl (by decide) (by decide)

/-- C3: an attribute decoded to the Unknown variant stores its
declared-length raw payload bytes verbatim, and re-encoding emits the
stored name index, the payload length and the payload unchanged,
reproducing the consumed bytes exactly. -/
theorem c3_unknown_attr_roundtrip (f : Nat) (pool : ConstantPool) (s : List Nat)
    (ni : ConstPoolIndex) (info : List Nat) (r : List Nat)
    (hb : Bytes s) (h : decodeAttr f pool s = .ok (.unknownAttr ni info, r)) :
    encodeAttr (.unknownAttr ni info) ++ r = s ∧
      encodeAttr (.unknownAttr ni info) = writeU2 ni ++ writeU4 info.length ++ info :=
  ⟨decodeAttr_rt f pool s _ r hb h, rfl⟩

/-- Witness for C3 at a concrete input: the StackMapTable attribute
record round-trips byte for byte. -/
theorem c3_unknown_attr_roundtrip_witness :
    encodeAttr (.unknownAttr 2 [7, 8]) ++ [] = exUnknownAttr ∧
      encodeAttr (.unknownAttr 2 [7, 8]) = writeU2 2 ++ writeU4 2 ++ [7, 8] :=
  c3_unknown_attr_roundtrip 1 cpAttrNames exUnknownAttr 2 [7, 8] []
    (by decide) rfl

/-- Slot accounting of the pool decoder alone: filling m logical slots
yields entries whose widths sum to exactly m. -/
theorem decodePool_widths :
    ∀ m s cs r, decodePool m s = .ok (cs, r) → sumWidths cs = m := by
  intro m
  induction m using Nat.strong_induction_on with
  | _ m ih =>
    rcases m with _ | m
    · intro s cs r h
      simp only [decodePool, Except.ok.injEq, Prod.mk.injEq] at h
      obtain ⟨rfl, rfl⟩ := h
      rfl
    · intro s cs r h
      rw [decodePool, bind_eq_ok] at h
      obtain ⟨⟨c, s1⟩, hc, h⟩ := h
      dsimp only at h
      split at h
      · rcases m with _ | m'
        · simp at h
        · rw [bind_eq_ok] at h
          obtain ⟨⟨cs2, s2⟩, hcs, h⟩ := h
          dsimp only at h
          simp only [Except.ok.injEq, Prod.mk.injEq] at h
          obtain ⟨rfl, rfl⟩ := h
          have ew := ih m' (by omega) s1 cs2 s2 hcs
          rw [sumWidths_cons, ew, constWidth_of_isWide (by assumption)]
          omega
      · rw [bind_eq_ok] at h
        obtain ⟨⟨cs2, s2⟩, hcs, h⟩ := h
        dsimp only at h
        simp only [Except.ok.injEq, Prod.mk.injEq] at h
        obtain ⟨rfl, rfl⟩ := h
        have ew := ih m (by omega) s1 cs2 s2 hcs
        rw [sumWidths_cons, ew, constWidth_of_not_isWide (by simp_all)]
        omega

/-- A pool containing a 64-bit entry occupies at least two slots. -/
theorem sumWidths_ge_two_of_wide :
    ∀ (cs : List Constant) (k0 k : Nat) (c : Constant),
      (k, c) ∈ slotsFrom k0 cs → isWide c = true → 2 ≤ sumWidths cs := by
  intro cs
  induction cs with
  | nil => intro k0 k c h _; simp [slotsFrom] at h
  | cons c0 cs ih =>
    intro k0 k c h hw
    rw [slotsFrom] at h
    rw [sumWidths_cons]
    rcases List.mem_cons.mp h with h1 | h2
    · simp only [Prod.mk.injEq] at h1
      obtain ⟨rfl, rfl⟩ := h1
      have := constWidth_of_isWide hw
      omega
    · have := ih (k0 + constWidth c0) k c h2 hw
      have := constWidth_pos c0
      omega

/-- C2: a constant pool declared with size N containing exactly one long
or double entry, sitting at logical slot k, decodes to exactly N - 2
addressable entries, and dereferencing logical slot k + 1 fails rather
than returning an entry. -/
theorem c2_wide_slot_accounting (n : Nat) (s : List Nat) (cs : List Constant)
    (r : List Nat) (k : Nat) (c : Constant)
    (hd : decodePool (n - 1) s = .ok (cs, r))
    (hw : countWide cs = 1)
    (hk : (k, c) ∈ slotsFrom 1 cs) (hwide : isWide c = true) :
    cs.length = n - 2 ∧ ConstantPool.lookup cs (k + 1) = none := by
  have ew := decodePool_widths (n - 1) s cs r hd
  have el := sumWidths_eq cs
  have hk2 : 2 ≤ sumWidths cs := sumWidths_ge_two_of_wide cs 1 k c hk hwide
  exact ⟨by omega, lookupFrom_shadow cs 1 k c hk hwide⟩

/-- Witness for C2 at a concrete input: a pool declared with four slots
holding a UTF8 entry (slot 1) and a long entry (slots 2 and 3) has two
entries, and slot 3 is not dereferenceable. -/
theorem c2_wide_slot_accounting_witness :
    cpWide.length = 4 - 2 ∧ ConstantPool.lookup cpWide (2 + 1) = none :=
  c2_wide_slot_accounting 4 exWidePool cpWide [] 2 (.long 9)
    rfl (by decide) (by decide) (by decide)

/-- C1 (amended): for every byte sequence that decodes successfully into
a ClassFile whose declared constant-pool size is at least one, with no
unconsumed remainder, re-encoding the ClassFile unchanged produces
exactly the original byte sequence.  (The restriction on the declared
pool size is forced by the counterexample below: encoding recomputes the
declared size as one plus the occupied slots, which is never zero.) -/
theorem c1_roundtrip (s : List Nat) (cf : ClassFile)
    (hb : Bytes s) (h : Parse s = .ok (cf, []))
    (hn : 1 ≤ cf.ConstPoolSize) : cf.Dump = s := by
  have hd := (Parse_rt hb h).2 hn
  simpa using hd

/-- Witness for C1 at a concrete input: the 28-byte class file image
round-trips byte for byte. -/
theorem c1_roundtrip_witness : cfDangling.Dump = exDangling :=
  c1_roundtrip exDangling cfDangling (by decide) rfl (by decide)

/-- Counterexample to C1 as stated: a file whose declared constant-pool
size field is zero decodes successfully, but re-encoding recomputes the
declared size from the actual (empty) pool layout as one, so the output
differs from the input at that field. -/
theorem c1_roundtrip_counterexample :
    Parse exZeroPool = .ok (cfZeroPool, []) ∧ cfZeroPool.Dump ≠ exZeroPool :=
  ⟨rfl, by decide⟩

/-- C9 (amended): after every successful decode whose declared
constant-pool size is at least one, the stored ConstPoolSize equals the
entry count of the decoded pool plus the number of long or double
entries plus one (the implicit slot 0).  Every value of the embedding is
immutable, so every subsequent operation preserves the relation.  (The
restriction on the declared size is forced by the counterexample below.) -/
theorem c9_pool_size_invariant (s : List Nat) (cf : ClassFile) (r : List Nat)
    (hb : Bytes s) (h : Parse s = .ok (cf, r)) (hn : 1 ≤ cf.ConstPoolSize) :
    cf.ConstPoolSize = cf.ConstantPool.length + countWide cf.ConstantPool + 1 := by
  have ew := (Parse_rt hb h).1
  have el := sumWidths_eq cf.ConstantPool
  omega

/-- Witness for C9 at a concrete input: the decoded pool of one UTF8
entry accounts for declared size two. -/
theorem c9_pool_size_invariant_witness :
    cfDangling.ConstPoolSize =
      cfDangling.ConstantPool.length + countWide cfDangling.ConstantPool + 1 :=
  c9_pool_size_invariant exDangling cfDangling [] (by decide) rfl (by decide)

/-- Counterexample to C9 as stated: a file with declared pool size zero
decodes successfully, yet its stored size field is 0 while the relation
demands 0 + 0 + 1. -/
theorem c9_pool_size_invariant_counterexample :
    Parse exZeroPool = .ok (cfZeroPool, []) ∧
      cfZeroPool.ConstPoolSize ≠
        cfZeroPool.ConstantPool.length + countWide cfZeroPool.ConstantPool + 1 :=
  ⟨rfl, by decide⟩

/-- C6: pool-index validity is checked lazily.  Decoding this
structurally well-formed file succeeds for every 16-bit this-class index
whatsoever - the index is stored, never dereferenced, during decode -
and only resolving this-class afterwards fails with DanglingIndex, both
for an out-of-range index (5, with lookup finding no entry) and for an
index naming a wrong-kind (UTF8, not class) entry (1). -/
theorem c6_lazy_this_class :
    (∀ n : Nat, n < 65536 →
      Parse (exDanglingPre ++ writeU2 n ++ exDanglingSuf) =
        .ok ({cfDangling with ThisClass := n}, [])) ∧
    ConstantPool.lookup cfDangling.ConstantPool cfDangling.ThisClass = none ∧
    cfDangling.ResolveThisClass = .error .danglingIndex ∧
    ({cfDangling with ThisClass := 1}).ResolveThisClass = .error .danglingIndex := by
  refine ⟨?_, rfl, rfl, rfl⟩
  intro n hn
  have key : ∀ a b : Nat,
      Parse (exDanglingPre ++ a :: b :: exDanglingSuf) =
        .ok ({cfDangling with ThisClass := a * 256 + b}, []) := fun a b => rfl
  have e : n / 256 % 256 * 256 + n % 256 = n := by omega
  have k := key (n / 256 % 256) (n % 256)
  rw [e] at k
  exact k

/-- Witness for C6 at a concrete index: the dangling index 5 parses. -/
theorem c6_lazy_this_class_witness :
    Parse (exDanglingPre ++ writeU2 5 ++ exDanglingSuf) =
      .ok ({cfDangling with ThisClass := 5}, []) :=
  c6_lazy_this_class.1 5 (by decide)

/-- C7: for every Constant and every Attribute value, the typed
projection accessor selected by a discriminant succeeds exactly when the
value runtime discriminant (GetTag) matches; on every other variant it
panics (modelled as none) rather than returning a value or an error. -/
theorem c7_typed_projections :
    (∀ (c : Constant) (t : ConstantType),
      constantProjectionDefined c t = true ↔ c.GetTag = t) ∧
    (∀ (a : Attribute) (t : AttributeType),
      attributeProjectionDefined a t = true ↔ a.GetTag = t) := by
  constructor
  · intro c t
    cases c <;> cases t <;>
      simp [constantProjectionDefined, Constant.GetTag, Constant.Class,
        Constant.Field, Constant.Method, Constant.InterfaceMethod,
        Constant.StringRef, Constant.Integer, Constant.Float, Constant.Long,
        Constant.Double, Constant.NameAndType, Constant.UTF8,
        Constant.MethodHandle, Constant.MethodType, Constant.InvokeDynamic]
  · intro a t
    cases a <;> cases t <;>
      simp [attributeProjectionDefined, Attribute.GetTag, Attribute.UnknownAttr,
        Attribute.ConstantValue, Attribute.Code, Attribute.Exceptions,
        Attribute.InnerClasses, Attribute.EnclosingMethod, Attribute.Synthetic,
        Attribute.Signature, Attribute.SourceFile, Attribute.SourceDebugExtension,
        Attribute.LineNumberTable, Attribute.LocalVariableTable,
        Attribute.LocalVariableTypeTable, Attribute.Deprecated,
        Attribute.BootstrapMethods]

/-- C8: on encode every count field and the declared constant-pool size
are recomputed from the actual in-memory sequences, never copied from a
stored value.  First, the stored ConstPoolSize field never influences
the output.  Second, for a class file whose pool, interface, field,
method and attribute sequences are replaced arbitrarily (as by mutation
after decode, for example stripping an attribute), the output consists
of a prefix independent of those sequences followed by each recomputed
count or size with the encoding of the new contents. -/
theorem c8_counts_recomputed :
    (∀ (cf : ClassFile) (n : Nat),
      ClassFile.Dump {cf with ConstPoolSize := n} = cf.Dump) ∧
    (∀ cf : ClassFile, ∃ p : List Nat,
      ∀ (pool : ConstantPool) (ifs : List ConstPoolIndex)
        (flds mths : List Member) (ats : List Attribute) (n : Nat),
      ClassFile.Dump ⟨cf.Magic, cf.MinorVersion, cf.MajorVersion, n, pool,
          cf.AccessFlags, cf.ThisClass, cf.SuperClass, ifs, flds, mths, ats⟩ =
        p ++ writeU2 pool.size ++ encodeConstantList pool ++
        writeU2 cf.AccessFlags ++ writeU2 cf.ThisClass ++ writeU2 cf.SuperClass ++
        writeU2 ifs.length ++ (ifs.map writeU2).flatten ++
        writeU2 flds.length ++ encodeMemberList flds ++
        writeU2 mths.length ++ encodeMemberList mths ++
        writeU2 ats.length ++ encodeAttrList ats) := by
  constructor
  · intro cf n
    rfl
  · intro cf
    refine ⟨writeU4 cf.Magic ++ writeU2 cf.MinorVersion ++ writeU2 cf.MajorVersion, ?_⟩
    intro pool ifs flds mths ats n
    rfl

end JClass
